import Mathlib

/-!
Verification of the check-orchestration core of `simple-healthchecker`
(`internal/state/state.go` and its collaborators), shallowly embedded in Lean.

Modelling conventions:
* `time.Time` values are modelled as `Nat` timestamps; the Go zero time is `0`
  (`t.IsZero()` becomes `t = 0`).
* Go `int64` / `int` fields are modelled as `Int` (the counters and latencies
  involved stay far below 2^63, so wraparound never matters).
* Probe executors are external collaborators; their results are inputs to the
  evaluation step, mirroring the structs of the `checks` package.
-/

namespace HealthChecker

/-- `config.CheckType` from `internal/config/config.go`. -/
inductive CheckType where
  | ping
  | http
  | tcp
deriving DecidableEq, Repr

/-- `state.CheckDataPoint`: a single check result with timestamp. -/
structure CheckDataPoint where
  timestamp : Nat
  ok : Bool
  latencyMS : Int
deriving DecidableEq, Repr

/-- `state.Event`: a state change entry of the event log. -/
structure Event where
  timestamp : Nat
  hostName : String
  checkIdx : Nat
  checkType : CheckType
  eventType : String
  message : String
  duration : Nat
deriving DecidableEq, Repr

/-- `state.CheckStatus`: the runtime status of one check. -/
structure CheckStatus where
  type : CheckType
  enabled : Bool
  ok : Bool
  parentFailed : Bool
  parentID : String
  message : String
  latencyMS : Int
  latencyHistory : List Int
  fullHistory : List CheckDataPoint
  checkedAt : Nat
  url : String
  expect : Int
  port : Int
  id : String
  dependsOn : String
  mqttNotify : Bool
  totalChecks : Int
  successChecks : Int
  lastDownAt : Nat
  lastUpAt : Nat
deriving DecidableEq, Repr

/-- `maxLatencyHistory = 20`. -/
def maxLatencyHistory : Nat := 20

/-- `maxFullHistory = 1000`. -/
def maxFullHistory : Nat := 1000

/-- `maxEvents = 500`. -/
def maxEvents : Nat := 500

/-- `CheckStatus.recordDataPoint`: append to the sparkline history (cap 20)
and the full history (cap 1000), dropping the oldest entry on overflow, then
bump the lifetime counters. -/
def CheckStatus.recordDataPoint (c : CheckStatus) (ts : Nat) (ok : Bool)
    (latencyMS : Int) : CheckStatus :=
  let lh := c.latencyHistory ++ [latencyMS]
  let lh := if lh.length > maxLatencyHistory then lh.drop 1 else lh
  let fh := c.fullHistory ++ [⟨ts, ok, latencyMS⟩]
  let fh := if fh.length > maxFullHistory then fh.drop 1 else fh
  { c with
    latencyHistory := lh
    fullHistory := fh
    totalChecks := c.totalChecks + 1
    successChecks := if ok then c.successChecks + 1 else c.successChecks }

/-- A freshly created check status: every field at its Go zero value apart
from the fields `New` copies out of the config. -/
def initCheckStatus (ty : CheckType) (enabled : Bool) (id dependsOn : String)
    (mqttNotify : Bool) (url : String) (expect : Int) (port : Int) :
    CheckStatus :=
  { type := ty, enabled := enabled, ok := false, parentFailed := false
    parentID := "", message := "", latencyMS := 0, latencyHistory := []
    fullHistory := [], checkedAt := 0, url := url, expect := expect
    port := port, id := id, dependsOn := dependsOn, mqttNotify := mqttNotify
    totalChecks := 0, successChecks := 0, lastDownAt := 0, lastUpAt := 0 }

/-- Fold a sequence of recorded data points over a check status. -/
def recordAll (c : CheckStatus) (dps : List CheckDataPoint) : CheckStatus :=
  dps.foldl (fun acc dp => acc.recordDataPoint dp.timestamp dp.ok dp.latencyMS) c

/-- The last `n` elements of a list. -/
def takeLast (n : Nat) (l : List α) : List α := l.drop (l.length - n)

lemma takeLast_length (n : Nat) (l : List α) :
    (takeLast n l).length = min n l.length := by
  simp [takeLast]; omega

lemma takeLast_of_le {n : Nat} {l : List α} (h : l.length ≤ n) :
    takeLast n l = l := by
  simp [takeLast, Nat.sub_eq_zero_of_le h]

lemma takeLast_takeLast_append (n : Nat) (l r : List α) :
    takeLast n (takeLast n l ++ r) = takeLast n (l ++ r) := by
  rcases le_or_lt l.length n with h | h
  · rw [takeLast_of_le h]
  · unfold takeLast
    rw [List.drop_append_eq_append_drop, List.drop_append_eq_append_drop]
    have h1 : (l.drop (l.length - n)).length = n := by simp; omega
    congr 1
    · rw [List.drop_drop]
      congr 1
      simp [h1]
      omega
    · congr 1
      simp [h1]
      omega

lemma recordDataPoint_fullHistory (c : CheckStatus) (dp : CheckDataPoint)
    (h : c.fullHistory.length ≤ maxFullHistory) :
    (c.recordDataPoint dp.timestamp dp.ok dp.latencyMS).fullHistory =
      takeLast maxFullHistory (c.fullHistory ++ [dp]) := by
  show (if (c.fullHistory ++ [dp]).length > maxFullHistory
      then (c.fullHistory ++ [dp]).drop 1 else (c.fullHistory ++ [dp])) = _
  rcases Nat.lt_or_ge maxFullHistory (c.fullHistory ++ [dp]).length with hgt | hle
  · have hlen : (c.fullHistory ++ [dp]).length = maxFullHistory + 1 := by
      simp only [List.length_append, List.length_cons, List.length_nil] at hgt ⊢
      omega
    rw [if_pos hgt]
    unfold takeLast
    rw [hlen]
    congr 1
  · rw [if_neg (by omega), takeLast_of_le hle]

lemma recordDataPoint_latencyHistory (c : CheckStatus) (ts : Nat) (ok : Bool)
    (lat : Int) (h : c.latencyHistory.length ≤ maxLatencyHistory) :
    (c.recordDataPoint ts ok lat).latencyHistory =
      takeLast maxLatencyHistory (c.latencyHistory ++ [lat]) := by
  show (if (c.latencyHistory ++ [lat]).length > maxLatencyHistory
      then (c.latencyHistory ++ [lat]).drop 1 else (c.latencyHistory ++ [lat])) = _
  rcases Nat.lt_or_ge maxLatencyHistory (c.latencyHistory ++ [lat]).length with hgt | hle
  · have hlen : (c.latencyHistory ++ [lat]).length = maxLatencyHistory + 1 := by
      simp only [List.length_append, List.length_cons, List.length_nil] at hgt ⊢
      omega
    rw [if_pos hgt]
    unfold takeLast
    rw [hlen]
    congr 1
  · rw [if_neg (by omega), takeLast_of_le hle]

lemma recordAll_characterization (dps : List CheckDataPoint) :
    ∀ c : CheckStatus, c.fullHistory.length ≤ maxFullHistory →
      c.latencyHistory.length ≤ maxLatencyHistory →
      (recordAll c dps).fullHistory = takeLast maxFullHistory (c.fullHistory ++ dps) ∧
      (recordAll c dps).latencyHistory =
        takeLast maxLatencyHistory (c.latencyHistory ++ dps.map (·.latencyMS)) ∧
      (recordAll c dps).totalChecks = c.totalChecks + dps.length ∧
      (recordAll c dps).successChecks =
        c.successChecks + (dps.filter (·.ok)).length := by
  induction dps with
  | nil => intro c _ _; simp [recordAll, takeLast_of_le, *]
  | cons dp dps ih =>
    intro c hf hl
    have hstep : recordAll c (dp :: dps) =
        recordAll (c.recordDataPoint dp.timestamp dp.ok dp.latencyMS) dps := by
      simp [recordAll]
    have hfh := recordDataPoint_fullHistory c dp hf
    have hlh := recordDataPoint_latencyHistory c dp.timestamp dp.ok dp.latencyMS hl
    have hfb : (c.recordDataPoint dp.timestamp dp.ok dp.latencyMS).fullHistory.length
        ≤ maxFullHistory := by rw [hfh, takeLast_length]; omega
    have hlb : (c.recordDataPoint dp.timestamp dp.ok dp.latencyMS).latencyHistory.length
        ≤ maxLatencyHistory := by rw [hlh, takeLast_length]; omega
    obtain ⟨ih1, ih2, ih3, ih4⟩ :=
      ih (c.recordDataPoint dp.timestamp dp.ok dp.latencyMS) hfb hlb
    refine ⟨?_, ?_, ?_, ?_⟩
    · rw [hstep, ih1, hfh, takeLast_takeLast_append]
      simp
    · rw [hstep, ih2, hlh, takeLast_takeLast_append]
      simp
    · rw [hstep, ih3]
      simp [CheckStatus.recordDataPoint]
      omega
    · rw [hstep, ih4]
      simp [CheckStatus.recordDataPoint, List.filter]
      cases hok : dp.ok <;> [skip; skip] <;> simp [hok] <;> try omega

lemma filter_replicate_ok (n : Nat) (dp : CheckDataPoint) (h : dp.ok = true) :
    ((List.replicate n dp).filter (·.ok)).length = n := by
  induction n with
  | zero => simp
  | succ n ih => simp [List.replicate_succ, List.filter, h, ih]

/-- C4: after any number of recorded evaluations starting from a fresh check,
`latencyHistory` and `fullHistory` hold exactly the most recent (≤ 20 resp.
≤ 1000) entries, eviction is oldest-first, the lifetime counters are never
reset by eviction, and 1001 consecutive successful evaluations leave
`fullHistory` with exactly 1000 entries and both counters at 1001. -/
theorem history_caps_eviction_counters (ty : CheckType) (en : Bool)
    (id dep : String) (mq : Bool) (url : String) (exp port : Int)
    (dps : List CheckDataPoint) (ts : Nat) (lat : Int) :
    (recordAll (initCheckStatus ty en id dep mq url exp port) dps).fullHistory =
      takeLast maxFullHistory dps ∧
    (recordAll (initCheckStatus ty en id dep mq url exp port) dps).latencyHistory =
      takeLast maxLatencyHistory (dps.map (·.latencyMS)) ∧
    (recordAll (initCheckStatus ty en id dep mq url exp port) dps).fullHistory.length
      ≤ 1000 ∧
    (recordAll (initCheckStatus ty en id dep mq url exp port) dps).latencyHistory.length
      ≤ 20 ∧
    (recordAll (initCheckStatus ty en id dep mq url exp port) dps).totalChecks =
      dps.length ∧
    (recordAll (initCheckStatus ty en id dep mq url exp port) dps).successChecks =
      (dps.filter (·.ok)).length ∧
    (recordAll (initCheckStatus ty en id dep mq url exp port)
        (List.replicate 1001 ⟨ts, true, lat⟩)).fullHistory.length = 1000 ∧
    (recordAll (initCheckStatus ty en id dep mq url exp port)
        (List.replicate 1001 ⟨ts, true, lat⟩)).totalChecks = 1001 ∧
    (recordAll (initCheckStatus ty en id dep mq url exp port)
        (List.replicate 1001 ⟨ts, true, lat⟩)).successChecks = 1001 := by
  have e1 : (initCheckStatus ty en id dep mq url exp port).fullHistory = [] := rfl
  have e2 : (initCheckStatus ty en id dep mq url exp port).latencyHistory = [] := rfl
  have e3 : (initCheckStatus ty en id dep mq url exp port).totalChecks = 0 := rfl
  have e4 : (initCheckStatus ty en id dep mq url exp port).successChecks = 0 := rfl
  obtain ⟨h1, h2, h3, h4⟩ :=
    recordAll_characterization dps (initCheckStatus ty en id dep mq url exp port)
      (by rw [e1]; simp) (by rw [e2]; simp)
  obtain ⟨g1, -, g3, g4⟩ :=
    recordAll_characterization (List.replicate 1001 ⟨ts, true, lat⟩)
      (initCheckStatus ty en id dep mq url exp port)
      (by rw [e1]; simp) (by rw [e2]; simp)
  rw [e1, List.nil_append] at h1 g1
  rw [e2, List.nil_append] at h2
  rw [e3, Int.zero_add] at h3 g3
  rw [e4, Int.zero_add] at h4 g4
  refine ⟨h1, h2, ?_, ?_, h3, h4, ?_, ?_, ?_⟩
  · rw [h1, takeLast_length]
    simp only [maxFullHistory]
    omega
  · rw [h2, takeLast_length]
    simp only [maxLatencyHistory]
    omega
  · rw [g1, takeLast_length, List.length_replicate]
    simp only [maxFullHistory]
    omega
  · rw [g3, List.length_replicate]
    norm_num
  · rw [g4, filter_replicate_ok 1001 ⟨ts, true, lat⟩ rfl]
    norm_num

/-- C9: each recorded evaluation increments `totalChecks` by exactly one and
`successChecks` by one exactly when the outcome was a success; the counters
never decrease, `0 ≤ successChecks ≤ totalChecks` is preserved by every step
and holds in every state reachable from a fresh check. -/
theorem counters_invariant (c : CheckStatus) (ts : Nat) (ok : Bool) (lat : Int)
    (h0 : 0 ≤ c.successChecks) (h1 : c.successChecks ≤ c.totalChecks) :
    (c.recordDataPoint ts ok lat).totalChecks = c.totalChecks + 1 ∧
    ((c.recordDataPoint ts ok lat).successChecks = c.successChecks + 1 ↔
      ok = true) ∧
    (ok = false → (c.recordDataPoint ts ok lat).successChecks = c.successChecks) ∧
    c.totalChecks ≤ (c.recordDataPoint ts ok lat).totalChecks ∧
    c.successChecks ≤ (c.recordDataPoint ts ok lat).successChecks ∧
    0 ≤ (c.recordDataPoint ts ok lat).successChecks ∧
    (c.recordDataPoint ts ok lat).successChecks ≤
      (c.recordDataPoint ts ok lat).totalChecks ∧
    (∀ (ty : CheckType) (en : Bool) (id dep : String) (mq : Bool) (url : String)
      (exp port : Int) (dps : List CheckDataPoint),
      0 ≤ (recordAll (initCheckStatus ty en id dep mq url exp port)
        dps).successChecks ∧
      (recordAll (initCheckStatus ty en id dep mq url exp port)
        dps).successChecks ≤
      (recordAll (initCheckStatus ty en id dep mq url exp port)
        dps).totalChecks) := by
  refine ⟨rfl, ?_, ?_, ?_, ?_, ?_, ?_, ?_⟩
  · cases ok <;> simp [CheckStatus.recordDataPoint]
  · intro h; simp [CheckStatus.recordDataPoint, h]
  · simp [CheckStatus.recordDataPoint]
  · cases ok <;> simp [CheckStatus.recordDataPoint]
  · cases ok <;> simp [CheckStatus.recordDataPoint] <;> omega
  · cases ok <;> simp [CheckStatus.recordDataPoint] <;> omega
  · intro ty en id dep mq url exp port dps
    have e1 : (initCheckStatus ty en id dep mq url exp port).fullHistory = [] := rfl
    have e2 : (initCheckStatus ty en id dep mq url exp port).latencyHistory = [] := rfl
    have e3 : (initCheckStatus ty en id dep mq url exp port).totalChecks = 0 := rfl
    have e4 : (initCheckStatus ty en id dep mq url exp port).successChecks = 0 := rfl
    obtain ⟨-, -, h3, h4⟩ :=
      recordAll_characterization dps (initCheckStatus ty en id dep mq url exp port)
        (by rw [e1]; simp) (by rw [e2]; simp)
    rw [e3, Int.zero_add] at h3
    rw [e4, Int.zero_add] at h4
    rw [h3, h4]
    have := List.length_filter_le (fun dp : CheckDataPoint => dp.ok) dps
    constructor
    · positivity
    · exact_mod_cast this

/-! ## Dependency resolver (`State.IsParentOK`) -/

/-- The `checksByID` index: an association of check IDs to check statuses
(`map[string]*CheckStatus` in the source). -/
def CheckIndex := List (String × CheckStatus)

/-- Go map lookup on the index. -/
def lookupId (idx : CheckIndex) (id : String) : Option CheckStatus :=
  match idx with
  | [] => none
  | (k, v) :: rest => if k = id then some v else lookupId rest id

/-- `State.IsParentOK`, which recurses along the `dependsOn` chain. The Go
function is plainly recursive with no cycle guard; the `fuel` argument models
its call stack, and the top-level entry point `isParentOK` passes fuel larger
than the length of any acyclic chain through the index. -/
def isParentOKFuel (idx : CheckIndex) : Nat → CheckStatus → Bool
  | 0, _ => true
  | fuel + 1, c =>
    if c.dependsOn = "" then true
    else
      match lookupId idx c.dependsOn with
      | none => true
      | some parent =>
        if parent.enabled = false then true
        else if parent.checkedAt = 0 then true
        else if isParentOKFuel idx fuel parent = false then false
        else parent.ok

/-- `State.IsParentOK` as invoked by the evaluator. -/
def isParentOK (idx : CheckIndex) (c : CheckStatus) : Bool :=
  isParentOKFuel idx (idx.length + 1) c

/-! ## Evaluator (the body of `State.runOnce` for one enabled check) -/

/-- `checks.PingResult` (probe executors are external; their results are
inputs to the evaluation step). -/
structure PingResult where
  ok : Bool
  latencyMS : Int
  err : Option String
deriving DecidableEq, Repr

/-- The result of `checks.HTTPGet`. -/
structure HTTPResult where
  code : Int
  latencyMS : Int
  err : Option String
deriving DecidableEq, Repr

/-- `checks.TCPResult`. -/
structure TCPResult where
  ok : Bool
  latencyMS : Int
  err : Option String
deriving DecidableEq, Repr

/-- The probe responses available to one evaluation of one check; the
evaluator consults the one matching the check's type. -/
structure ProbeInputs where
  ping : PingResult
  http : HTTPResult
  tcp : TCPResult
deriving DecidableEq, Repr

/-- `fmt.Sprintf("status %d (expect %d)", code, expect)`. -/
def statusMsg (code expect : Int) : String :=
  s!"status {code} (expect {expect})"

/-- The per-type `switch` of `runOnce`: stamp `checkedAt`, classify the raw
probe outcome, set `ok` / `parentFailed` / `message` / `latencyMS`, and record
the raw outcome into analytics.  Returns the updated status together with the
raw (`actualOK`) outcome. External side effects (the healthchecks ping URLs
and the probe I/O itself) are outside the model. -/
def applyProbe (parentOK : Bool) (now : Nat) (c : CheckStatus)
    (pr : ProbeInputs) : CheckStatus × Bool :=
  match c.type with
  | .ping =>
    let res := pr.ping
    let actualOK := res.ok
    let c := { c with checkedAt := now }
    let c :=
      if res.ok then
        { c with
          ok := true
          parentFailed := false
          message := "pong"
          latencyMS := res.latencyMS }
      else if parentOK = false then
        { c with
          ok := false
          parentFailed := true
          message := "parent check failed"
          latencyMS := 0 }
      else
        { c with
          ok := false
          parentFailed := false
          message := match res.err with
            | some e => e
            | none => "no reply"
          latencyMS := 0 }
    (c.recordDataPoint now actualOK c.latencyMS, actualOK)
  | .http =>
    let res := pr.http
    let c := { c with checkedAt := now }
    let actualOK : Bool :=
      match res.err with
      | none => res.code == (if c.expect = (0 : Int) then (200 : Int) else c.expect)
      | some _ => false
    let c :=
      if actualOK then
        let m := statusMsg res.code c.expect
        let m := if c.expect = (0 : Int) then statusMsg res.code (200 : Int) else m
        { c with
          ok := true
          parentFailed := false
          message := m
          latencyMS := res.latencyMS }
      else if parentOK = false then
        { c with
          ok := false
          parentFailed := true
          message := "parent check failed"
          latencyMS := 0 }
      else
        { c with
          ok := false
          parentFailed := false
          message := match res.err with
            | some e => e
            | none => statusMsg res.code (if c.expect = (0 : Int) then (200 : Int) else c.expect)
          latencyMS := res.latencyMS }
    (c.recordDataPoint now actualOK c.latencyMS, actualOK)
  | .tcp =>
    let res := pr.tcp
    let port := if c.port = (0 : Int) then (80 : Int) else c.port
    let actualOK := res.ok
    let c := { c with checkedAt := now }
    let c :=
      if res.ok then
        { c with
          ok := true
          parentFailed := false
          message := s!"port {port} open"
          latencyMS := res.latencyMS }
      else if parentOK = false then
        { c with
          ok := false
          parentFailed := true
          message := "parent check failed"
          latencyMS := 0 }
      else
        { c with
          ok := false
          parentFailed := false
          message := match res.err with
            | some e => e
            | none => s!"port {port} closed"
          latencyMS := 0 }
    (c.recordDataPoint now actualOK c.latencyMS, actualOK)

/-- The transition-detection block at the end of the `runOnce` loop body:
diff the pre-pass flags against the updated status and emit at most one
classified event (the exact events handed to `logEvent`, in order). The
human-readable recovery message is abbreviated (Go renders the duration via
`duration.Round(time.Second)`); no claim depends on its text. -/
def transitionStep (hostName : String) (i now : Nat)
    (wasOK wasChecked wasParentFailed : Bool) (c : CheckStatus) :
    CheckStatus × List Event :=
  if wasChecked then
    if wasOK && !c.ok && !c.parentFailed then
      let c := { c with lastDownAt := now }
      (c, [⟨now, hostName, i, c.type, "down", c.message, 0⟩])
    else if !wasOK && c.ok then
      let duration := if c.lastDownAt ≠ 0 then now - c.lastDownAt else 0
      let c := { c with lastUpAt := now }
      if !wasParentFailed then
        (c, [⟨now, hostName, i, c.type, "recovered",
          "Back up after " ++ toString duration, duration⟩])
      else
        (c, [])
    else if wasParentFailed && !c.parentFailed && !c.ok then
      let c := { c with lastDownAt := now }
      (c, [⟨now, hostName, i, c.type, "down", c.message, 0⟩])
    else
      (c, [])
  else
    (c, [])

/-- The outcome of one `runOnce` loop iteration on one enabled check: the
updated status, the events appended to the event log, and the raw probe
outcome that was recorded into analytics. -/
structure EvalResult where
  check : CheckStatus
  events : List Event
  raw : Bool
deriving Repr

/-- The `runOnce` loop body for one enabled check (`!c.Enabled` iterations
are skipped by the loop): snapshot the pre-pass flags, resolve parent health,
apply the type-appropriate probe, then run transition detection. -/
def evalEnabledCheck (idx : CheckIndex) (hostName : String) (i now : Nat)
    (c : CheckStatus) (pr : ProbeInputs) : EvalResult :=
  let wasOK := c.ok
  let wasChecked := !(c.checkedAt == 0)
  let wasParentFailed := c.parentFailed
  let parentOK := isParentOK idx c
  let c := if c.dependsOn = "" then c else { c with parentID := c.dependsOn }
  let step := applyProbe parentOK now c pr
  let fin := transitionStep hostName i now wasOK wasChecked wasParentFailed step.1
  ⟨fin.1, fin.2, step.2⟩

/-- `logEvent`, applied to each emitted event in order: the global event log
is a bounded FIFO of capacity 500. -/
def logEvents (log : List Event) (es : List Event) : List Event :=
  es.foldl (fun lg e =>
    let lg := lg ++ [e]
    if lg.length > maxEvents then lg.drop 1 else lg) log

lemma recordDataPoint_flags (c : CheckStatus) (ts : Nat) (ok : Bool) (lat : Int) :
    (c.recordDataPoint ts ok lat).ok = c.ok ∧
    (c.recordDataPoint ts ok lat).parentFailed = c.parentFailed ∧
    (c.recordDataPoint ts ok lat).lastDownAt = c.lastDownAt ∧
    (c.recordDataPoint ts ok lat).lastUpAt = c.lastUpAt ∧
    (c.recordDataPoint ts ok lat).type = c.type ∧
    (c.recordDataPoint ts ok lat).checkedAt = c.checkedAt ∧
    (c.recordDataPoint ts ok lat).message = c.message := by
  simp [CheckStatus.recordDataPoint]

lemma getLast_append_singleton (l : List α) (a : α) :
    (l ++ [a]).getLast? = some a :=
  List.getLast?_concat l

lemma recordDataPoint_getLast (c : CheckStatus) (ts : Nat) (ok : Bool) (lat : Int) :
    (c.recordDataPoint ts ok lat).fullHistory.getLast? =
      some ⟨ts, ok, lat⟩ := by
  show (if (c.fullHistory ++ [(⟨ts, ok, lat⟩ : CheckDataPoint)]).length > maxFullHistory
      then (c.fullHistory ++ [(⟨ts, ok, lat⟩ : CheckDataPoint)]).drop 1
      else c.fullHistory ++ [(⟨ts, ok, lat⟩ : CheckDataPoint)]).getLast? = _
  rcases hl : c.fullHistory with - | ⟨a, l⟩
  · simp [maxFullHistory]
  · by_cases hc : ((a :: l) ++ [(⟨ts, ok, lat⟩ : CheckDataPoint)]).length > maxFullHistory
    · rw [if_pos hc]
      rw [List.cons_append, List.drop_one, List.tail_cons]
      exact getLast_append_singleton l _
    · rw [if_neg hc, List.cons_append, ← List.cons_append]
      exact getLast_append_singleton (a :: l) _

lemma recordDataPoint_counters (c : CheckStatus) (ts : Nat) (ok : Bool) (lat : Int) :
    (c.recordDataPoint ts ok lat).totalChecks = c.totalChecks + 1 ∧
    (c.recordDataPoint ts ok lat).successChecks =
      c.successChecks + (if ok then 1 else 0) := by
  cases ok <;> simp [CheckStatus.recordDataPoint]

/-- The post-probe flags as a function of the raw outcome and parent health:
`ok` is the raw outcome, `parentFailed` holds exactly on a raw failure with an
unhealthy parent, and the probe switch leaves `lastDownAt` / `lastUpAt` /
`type` untouched and stamps `checkedAt := now`. -/
lemma applyProbe_spec (p : Bool) (now : Nat) (c : CheckStatus)
    (pr : ProbeInputs) :
    (applyProbe p now c pr).1.ok = (applyProbe p now c pr).2 ∧
    (applyProbe p now c pr).1.parentFailed =
      (!(applyProbe p now c pr).2 && !p) ∧
    (applyProbe p now c pr).1.lastDownAt = c.lastDownAt ∧
    (applyProbe p now c pr).1.lastUpAt = c.lastUpAt ∧
    (applyProbe p now c pr).1.type = c.type ∧
    (applyProbe p now c pr).1.checkedAt = now := by
  obtain ⟨ty, en, ok, pf, pid, msg, lat, lh, fh, ca, url, exp, prt, id, dep,
    mq, tc, sc, lda, lua⟩ := c
  obtain ⟨⟨pok, plat, perr⟩, ⟨hcode, hlat, herr⟩, ⟨tok, tlat, terr⟩⟩ := pr
  cases ty
  · cases pok <;> cases p <;>
      simp [applyProbe, CheckStatus.recordDataPoint]
  · rcases herr with - | e
    · by_cases hc : hcode == (if exp = (0 : Int) then (200 : Int) else exp)
      · cases p <;>
          simp [applyProbe, CheckStatus.recordDataPoint, hc]
      · cases p <;>
          simp [applyProbe, CheckStatus.recordDataPoint, hc]
    · cases p <;>
        simp [applyProbe, CheckStatus.recordDataPoint]
  · cases tok <;> cases p <;>
      simp [applyProbe, CheckStatus.recordDataPoint]

/-- The raw probe outcome recorded by `applyProbe` does not depend on parent
health. -/
lemma applyProbe_raw_independent (p q : Bool) (now : Nat) (c : CheckStatus)
    (pr : ProbeInputs) :
    (applyProbe p now c pr).2 = (applyProbe q now c pr).2 := by
  obtain ⟨ty, en, ok, pf, pid, msg, lat, lh, fh, ca, url, exp, prt, id, dep,
    mq, tc, sc, lda, lua⟩ := c
  obtain ⟨⟨pok, plat, perr⟩, ⟨hcode, hlat, herr⟩, ⟨tok, tlat, terr⟩⟩ := pr
  cases ty <;> cases p <;> cases q <;> simp [applyProbe]

/-- The data point appended by `applyProbe` carries the raw outcome, and the
counters are bumped accordingly. -/
lemma applyProbe_record (p : Bool) (now : Nat) (c : CheckStatus)
    (pr : ProbeInputs) :
    ((applyProbe p now c pr).1.fullHistory.getLast?).map (·.ok) =
      some (applyProbe p now c pr).2 ∧
    (applyProbe p now c pr).1.totalChecks = c.totalChecks + 1 ∧
    (applyProbe p now c pr).1.successChecks =
      c.successChecks + (if (applyProbe p now c pr).2 then 1 else 0) := by
  obtain ⟨ty, en, ok, pf, pid, msg, lat, lh, fh, ca, url, exp, prt, id, dep,
    mq, tc, sc, lda, lua⟩ := c
  obtain ⟨⟨pok, plat, perr⟩, ⟨hcode, hlat, herr⟩, ⟨tok, tlat, terr⟩⟩ := pr
  cases ty
  · cases pok <;> cases p <;>
      simp [applyProbe, recordDataPoint_getLast, recordDataPoint_counters,
        (recordDataPoint_counters _ _ _ _).1, (recordDataPoint_counters _ _ _ _).2]
  · rcases herr with - | e
    · by_cases hc : hcode == (if exp = (0 : Int) then (200 : Int) else exp)
      · cases p <;>
          simp [applyProbe, hc, recordDataPoint_getLast,
            (recordDataPoint_counters _ _ _ _).1, (recordDataPoint_counters _ _ _ _).2]
      · cases p <;>
          simp [applyProbe, hc, recordDataPoint_getLast,
            (recordDataPoint_counters _ _ _ _).1, (recordDataPoint_counters _ _ _ _).2]
    · cases p <;>
        simp [applyProbe, recordDataPoint_getLast,
          (recordDataPoint_counters _ _ _ _).1, (recordDataPoint_counters _ _ _ _).2]
  · cases tok <;> cases p <;>
      simp [applyProbe, recordDataPoint_getLast,
        (recordDataPoint_counters _ _ _ _).1, (recordDataPoint_counters _ _ _ _).2]

lemma transitionStep_not_ok_blocked (host : String) (i now : Nat)
    (wOK wC wPF : Bool) (c : CheckStatus) (h1 : c.ok = false)
    (h2 : c.parentFailed = true) :
    transitionStep host i now wOK wC wPF c = (c, []) := by
  simp [transitionStep, h1, h2]

lemma transitionStep_first (host : String) (i now : Nat) (wOK wPF : Bool)
    (c : CheckStatus) :
    transitionStep host i now wOK false wPF c = (c, []) := by
  simp [transitionStep]

lemma transitionStep_genuine_down (host : String) (i now : Nat) (wPF : Bool)
    (c : CheckStatus) (h1 : c.ok = false) (h2 : c.parentFailed = false) :
    transitionStep host i now true true wPF c =
      ({ c with lastDownAt := now },
       [⟨now, host, i, c.type, "down", c.message, 0⟩]) := by
  simp [transitionStep, h1, h2]

lemma transitionStep_deferred_down (host : String) (i now : Nat)
    (c : CheckStatus) (h1 : c.ok = false) (h2 : c.parentFailed = false) :
    transitionStep host i now false true true c =
      ({ c with lastDownAt := now },
       [⟨now, host, i, c.type, "down", c.message, 0⟩]) := by
  simp [transitionStep, h1, h2]

lemma transitionStep_recovered (host : String) (i now : Nat)
    (c : CheckStatus) (h1 : c.ok = true) :
    transitionStep host i now false true false c =
      ({ c with lastUpAt := now },
       [⟨now, host, i, c.type, "recovered",
         "Back up after " ++
           toString (if c.lastDownAt ≠ 0 then now - c.lastDownAt else 0),
         if c.lastDownAt ≠ 0 then now - c.lastDownAt else 0⟩]) := by
  simp [transitionStep, h1]

lemma transitionStep_blocked_recovery (host : String) (i now : Nat)
    (c : CheckStatus) (h1 : c.ok = true) :
    transitionStep host i now false true true c =
      ({ c with lastUpAt := now }, []) := by
  simp [transitionStep, h1]

/-- `evalEnabledCheck` unfolded into its three stages. -/
lemma evalEnabledCheck_eq (idx : CheckIndex) (host : String) (i now : Nat)
    (c : CheckStatus) (pr : ProbeInputs) :
    evalEnabledCheck idx host i now c pr =
      ⟨(transitionStep host i now c.ok (!(c.checkedAt == 0)) c.parentFailed
          (applyProbe (isParentOK idx c) now
            (if c.dependsOn = "" then c else { c with parentID := c.dependsOn })
            pr).1).1,
       (transitionStep host i now c.ok (!(c.checkedAt == 0)) c.parentFailed
          (applyProbe (isParentOK idx c) now
            (if c.dependsOn = "" then c else { c with parentID := c.dependsOn })
            pr).1).2,
       (applyProbe (isParentOK idx c) now
          (if c.dependsOn = "" then c else { c with parentID := c.dependsOn })
          pr).2⟩ := rfl

lemma parentIDUpdate_fields (c : CheckStatus) :
    (if c.dependsOn = "" then c else { c with parentID := c.dependsOn }).ok = c.ok ∧
    (if c.dependsOn = "" then c else { c with parentID := c.dependsOn }).lastDownAt
      = c.lastDownAt ∧
    (if c.dependsOn = "" then c else { c with parentID := c.dependsOn }).lastUpAt
      = c.lastUpAt := by
  by_cases h : c.dependsOn = "" <;> simp [h]

/-- C3: dependency resolution returns true when `dependsOn` is empty, when
the parent ID is not in the index, when the parent is disabled, or when the
parent was never evaluated; otherwise it is the parent's `ok` AND the
recursive result up the parent's own chain (the fuel argument models the
recursion of the Go function, which carries no cycle guard). -/
theorem isParentOK_cases (idx : CheckIndex) (c : CheckStatus) :
    (c.dependsOn = "" → isParentOK idx c = true) ∧
    (lookupId idx c.dependsOn = none → isParentOK idx c = true) ∧
    (∀ p, lookupId idx c.dependsOn = some p → p.enabled = false →
      isParentOK idx c = true) ∧
    (∀ p, lookupId idx c.dependsOn = some p → p.checkedAt = 0 →
      isParentOK idx c = true) ∧
    (∀ (fuel : Nat) (p : CheckStatus), c.dependsOn ≠ "" →
      lookupId idx c.dependsOn = some p → p.enabled = true → p.checkedAt ≠ 0 →
      isParentOKFuel idx (fuel + 1) c = (p.ok && isParentOKFuel idx fuel p)) := by
  refine ⟨?_, ?_, ?_, ?_, ?_⟩
  · intro h
    simp [isParentOK, isParentOKFuel, h]
  · intro h
    by_cases hd : c.dependsOn = ""
    · simp [isParentOK, isParentOKFuel, hd]
    · simp [isParentOK, isParentOKFuel, hd, h]
  · intro p hp hen
    by_cases hd : c.dependsOn = ""
    · simp [isParentOK, isParentOKFuel, hd]
    · simp [isParentOK, isParentOKFuel, hd, hp, hen]
  · intro p hp hz
    by_cases hd : c.dependsOn = ""
    · simp [isParentOK, isParentOKFuel, hd]
    · cases hen : p.enabled
      · simp [isParentOK, isParentOKFuel, hd, hp, hen]
      · simp [isParentOK, isParentOKFuel, hd, hp, hen, hz]
  · intro fuel p hd hp hen hz
    cases hrec : isParentOKFuel idx fuel p
    · simp [isParentOKFuel, hd, hp, hen, hz, hrec]
    · simp [isParentOKFuel, hd, hp, hen, hz, hrec]

/-- Witness for `isParentOK_cases`: a check with no dependency resolves
parent-healthy. -/
theorem isParentOK_cases_witness :
    isParentOK [] (initCheckStatus .ping true "" "" false "" 0 0) = true :=
  (isParentOK_cases [] (initCheckStatus .ping true "" "" false "" 0 0)).1 rfl

lemma transitionStep_analytics (host : String) (i now : Nat)
    (wOK wC wPF : Bool) (c : CheckStatus) :
    (transitionStep host i now wOK wC wPF c).1.fullHistory = c.fullHistory ∧
    (transitionStep host i now wOK wC wPF c).1.totalChecks = c.totalChecks ∧
    (transitionStep host i now wOK wC wPF c).1.successChecks = c.successChecks := by
  cases wC
  · simp [transitionStep]
  · cases wOK <;> cases hco : c.ok <;> cases hpf : c.parentFailed <;>
      cases wPF <;> simp [transitionStep, hco, hpf]

/-- C1: for an enabled check observed at least once, a transition into
BLOCKED appends no event; a BLOCKED→genuine-DOWN transition appends exactly
one `down` event; a genuine UP→DOWN transition appends exactly one `down`
event and stamps `lastDownAt` with the pass time; and a first observation
appends no event regardless of outcome. -/
theorem transition_event_emission (idx : CheckIndex) (host : String)
    (i now : Nat) (c : CheckStatus) (pr : ProbeInputs) :
    (c.checkedAt ≠ 0 → isParentOK idx c = false →
      (evalEnabledCheck idx host i now c pr).raw = false →
      (evalEnabledCheck idx host i now c pr).events = []) ∧
    (c.checkedAt ≠ 0 → c.ok = false → c.parentFailed = true →
      isParentOK idx c = true →
      (evalEnabledCheck idx host i now c pr).raw = false →
      ∃ e, (evalEnabledCheck idx host i now c pr).events = [e] ∧
        e.eventType = "down") ∧
    (c.checkedAt ≠ 0 → c.ok = true → isParentOK idx c = true →
      (evalEnabledCheck idx host i now c pr).raw = false →
      (∃ e, (evalEnabledCheck idx host i now c pr).events = [e] ∧
        e.eventType = "down") ∧
      (evalEnabledCheck idx host i now c pr).check.lastDownAt = now) ∧
    (c.checkedAt = 0 → (evalEnabledCheck idx host i now c pr).events = []) := by
  obtain ⟨hok, hpf, hlda, hlua, hty, hca⟩ :=
    applyProbe_spec (isParentOK idx c) now
      (if c.dependsOn = "" then c else { c with parentID := c.dependsOn }) pr
  simp only [evalEnabledCheck_eq]
  set P := applyProbe (isParentOK idx c) now
    (if c.dependsOn = "" then c else { c with parentID := c.dependsOn }) pr with hP
  refine ⟨?_, ?_, ?_, ?_⟩
  · intro hck hp hraw
    have h1 : P.1.ok = false := by rw [hok, hraw]
    have h2 : P.1.parentFailed = true := by rw [hpf, hraw, hp]; rfl
    rw [transitionStep_not_ok_blocked _ _ _ _ _ _ _ h1 h2]
  · intro hck hco hcpf hp hraw
    have hwc : (!(c.checkedAt == 0)) = true := by simp [hck]
    have h1 : P.1.ok = false := by rw [hok, hraw]
    have h2 : P.1.parentFailed = false := by rw [hpf, hraw, hp]; rfl
    rw [hco, hcpf, hwc, transitionStep_deferred_down _ _ _ _ h1 h2]
    exact ⟨_, rfl, rfl⟩
  · intro hck hco hp hraw
    have hwc : (!(c.checkedAt == 0)) = true := by simp [hck]
    have h1 : P.1.ok = false := by rw [hok, hraw]
    have h2 : P.1.parentFailed = false := by rw [hpf, hraw, hp]; rfl
    rw [hco, hwc, transitionStep_genuine_down _ _ _ _ _ h1 h2]
    exact ⟨⟨_, rfl, rfl⟩, rfl⟩
  · intro hck
    have hwc : (!(c.checkedAt == 0)) = false := by simp [hck]
    rw [hwc, transitionStep_first]

/-- Witness inputs: probe responses reporting failure resp. success for
every check type. -/
def prFailInputs : ProbeInputs := ⟨⟨false, 0, none⟩, ⟨0, 0, some "x"⟩, ⟨false, 0, none⟩⟩

/-- Probe responses reporting success for every check type. -/
def prOKInputs : ProbeInputs := ⟨⟨true, 12, none⟩, ⟨200, 5, none⟩, ⟨true, 7, none⟩⟩

/-- A ping check previously observed UP. -/
def upPingCheck : CheckStatus :=
  { initCheckStatus .ping true "" "" false "" 0 0 with ok := true, checkedAt := 5 }

/-- A ping check previously observed genuinely DOWN (down since time 3). -/
def downPingCheck : CheckStatus :=
  { initCheckStatus .ping true "" "" false "" 0 0 with
    ok := false
    checkedAt := 5
    lastDownAt := 3 }

/-- Witness for `transition_event_emission`: a genuine UP→DOWN transition of
a concrete ping check emits one `down` event. -/
theorem transition_event_emission_witness :
    ∃ e, (evalEnabledCheck [] "h" 0 10 upPingCheck prFailInputs).events = [e] ∧
      e.eventType = "down" :=
  (((transition_event_emission [] "h" 0 10 upPingCheck prFailInputs).2.2.1
    (by decide) (by decide) (by decide) (by decide))).1

/-- C2: a genuine DOWN→UP transition appends exactly one `recovered` event
whose duration is `now − lastDownAt` (zero when `lastDownAt` was never
stamped) and stamps `lastUpAt`; a BLOCKED→UP transition appends no event. -/
theorem recovery_event_emission (idx : CheckIndex) (host : String)
    (i now : Nat) (c : CheckStatus) (pr : ProbeInputs) :
    (c.checkedAt ≠ 0 → c.ok = false → c.parentFailed = false →
      (evalEnabledCheck idx host i now c pr).raw = true →
      (∃ e, (evalEnabledCheck idx host i now c pr).events = [e] ∧
        e.eventType = "recovered" ∧
        e.duration = (if c.lastDownAt ≠ 0 then now - c.lastDownAt else 0)) ∧
      (evalEnabledCheck idx host i now c pr).check.lastUpAt = now) ∧
    (c.checkedAt ≠ 0 → c.ok = false → c.parentFailed = true →
      (evalEnabledCheck idx host i now c pr).raw = true →
      (evalEnabledCheck idx host i now c pr).events = []) := by
  obtain ⟨hok, hpf, hlda, hlua, hty, hca⟩ :=
    applyProbe_spec (isParentOK idx c) now
      (if c.dependsOn = "" then c else { c with parentID := c.dependsOn }) pr
  obtain ⟨u1, u2, u3⟩ := parentIDUpdate_fields c
  simp only [evalEnabledCheck_eq]
  set P := applyProbe (isParentOK idx c) now
    (if c.dependsOn = "" then c else { c with parentID := c.dependsOn }) pr with hP
  have hld : P.1.lastDownAt = c.lastDownAt := by rw [hlda, u2]
  constructor
  · intro hck hco hcpf hraw
    have hwc : (!(c.checkedAt == 0)) = true := by simp [hck]
    have h1 : P.1.ok = true := by rw [hok, hraw]
    rw [hco, hcpf, hwc, transitionStep_recovered _ _ _ _ h1]
    refine ⟨⟨_, rfl, rfl, ?_⟩, rfl⟩
    rw [hld]
  · intro hck hco hcpf hraw
    have hwc : (!(c.checkedAt == 0)) = true := by simp [hck]
    have h1 : P.1.ok = true := by rw [hok, hraw]
    rw [hco, hcpf, hwc, transitionStep_blocked_recovery _ _ _ _ h1]

/-- Witness for `recovery_event_emission`: a concrete DOWN→UP transition
emits one `recovered` event with duration `10 − 3 = 7`. -/
theorem recovery_event_emission_witness :
    ∃ e, (evalEnabledCheck [] "h" 0 10 downPingCheck prOKInputs).events = [e] ∧
      e.eventType = "recovered" ∧ e.duration = (if (3 : Nat) ≠ 0 then 10 - 3 else 0) :=
  ((recovery_event_emission [] "h" 0 10 downPingCheck prOKInputs).1
    (by decide) (by decide) (by decide) (by decide)).1

/-- C6: analytics are independent of parent health: for identical raw probe
results under different parent healths, the appended data point's `ok` flag
and the increments to `totalChecks` / `successChecks` coincide and equal the
raw, unsuppressed probe outcome. -/
theorem analytics_parent_independence (p q : Bool) (now : Nat)
    (c : CheckStatus) (pr : ProbeInputs) :
    (applyProbe p now c pr).2 = (applyProbe q now c pr).2 ∧
    ((applyProbe p now c pr).1.fullHistory.getLast?).map (·.ok) =
      some ((applyProbe p now c pr).2) ∧
    ((applyProbe q now c pr).1.fullHistory.getLast?).map (·.ok) =
      some ((applyProbe p now c pr).2) ∧
    (applyProbe p now c pr).1.totalChecks = c.totalChecks + 1 ∧
    (applyProbe q now c pr).1.totalChecks = c.totalChecks + 1 ∧
    (applyProbe p now c pr).1.successChecks =
      c.successChecks + (if (applyProbe p now c pr).2 then 1 else 0) ∧
    (applyProbe q now c pr).1.successChecks =
      c.successChecks + (if (applyProbe p now c pr).2 then 1 else 0) := by
  have hind := applyProbe_raw_independent p q now c pr
  obtain ⟨a1, a2, a3⟩ := applyProbe_record p now c pr
  obtain ⟨b1, b2, b3⟩ := applyProbe_record q now c pr
  refine ⟨hind, a1, ?_, a2, b2, a3, ?_⟩
  · rw [b1, hind]
  · rw [b3, hind]

/-! ## Analytics latency statistics (`GetHostAnalytics`) -/

/-- The sample filter of the latency-statistics loop:
`dp.OK && dp.LatencyMS > 0`. -/
def qualSample (dp : CheckDataPoint) : Bool :=
  dp.ok && decide (0 < dp.latencyMS)

/-- The running state of the latency-statistics loop of `GetHostAnalytics`. -/
structure LatencyAcc where
  sum : Int
  count : Int
  minL : Int
  maxL : Int
  lats : List Int
deriving DecidableEq, Repr

/-- One iteration of the latency-statistics loop: qualifying samples
contribute to the sum, the count, the collected latencies, and tighten
min/max. -/
def latencyLoop (st : LatencyAcc) (dp : CheckDataPoint) : LatencyAcc :=
  if qualSample dp then
    { sum := st.sum + dp.latencyMS
      count := st.count + 1
      minL := if dp.latencyMS < st.minL then dp.latencyMS else st.minL
      maxL := if dp.latencyMS > st.maxL then dp.latencyMS else st.maxL
      lats := st.lats ++ [dp.latencyMS] }
  else st

/-- The latency fields of `CheckAnalytics` computed by `GetHostAnalytics`. -/
structure LatencyStats where
  avgLatency : Rat
  minLatency : Int
  maxLatency : Int
  p95Latency : Int
deriving DecidableEq, Repr

/-- The latency-statistics block of `GetHostAnalytics` (lines 311–341): on a
nonempty history, min/max are seeded from the FIRST history entry's latency,
the loop accumulates over qualifying samples, and when at least one sample
qualifies the average is `sum/count`, the latencies are sorted ascending and
P95 is taken at index `int(float64(n)*0.95)` clamped to the last index. The
Go float computation equals `⌊0.95·n⌋` for every `n ≤ maxFullHistory`, so it
is modelled by exact integer arithmetic; `AvgLatency` (a Go `float64`) is
modelled as the exact rational. The in-place `sort.Slice` ascending sort is
modelled by `insertionSort`, which produces the same (unique) ascending
reordering. -/
def latencyStats (h : List CheckDataPoint) : LatencyStats :=
  match h with
  | [] => ⟨0, 0, 0, 0⟩
  | first :: _ =>
    let acc := h.foldl latencyLoop ⟨0, 0, first.latencyMS, first.latencyMS, []⟩
    if 0 < acc.count then
      let sorted := List.insertionSort (· ≤ ·) acc.lats
      let n := acc.lats.length
      let idx := n * 95 / 100
      let idx := if idx ≥ n then n - 1 else idx
      ⟨(acc.sum : Rat) / (acc.count : Rat), acc.minL, acc.maxL, sorted.getD idx 0⟩
    else
      ⟨0, acc.minL, acc.maxL, 0⟩

lemma latencyFold_characterization (h : List CheckDataPoint) :
    ∀ st : LatencyAcc,
      (h.foldl latencyLoop st).lats =
        st.lats ++ (h.filter qualSample).map (·.latencyMS) ∧
      (h.foldl latencyLoop st).sum =
        st.sum + ((h.filter qualSample).map (·.latencyMS)).sum ∧
      (h.foldl latencyLoop st).count =
        st.count + ((h.filter qualSample).map (·.latencyMS)).length ∧
      (h.foldl latencyLoop st).minL =
        ((h.filter qualSample).map (·.latencyMS)).foldl
          (fun a b => if b < a then b else a) st.minL ∧
      (h.foldl latencyLoop st).maxL =
        ((h.filter qualSample).map (·.latencyMS)).foldl
          (fun a b => if b > a then b else a) st.maxL := by
  induction h with
  | nil => intro st; simp
  | cons dp h ih =>
    intro st
    have hfold : (dp :: h).foldl latencyLoop st =
        h.foldl latencyLoop (latencyLoop st dp) := rfl
    obtain ⟨i1, i2, i3, i4, i5⟩ := ih (latencyLoop st dp)
    by_cases hq : qualSample dp
    · refine ⟨?_, ?_, ?_, ?_, ?_⟩
      · rw [hfold, i1]
        simp [latencyLoop, hq, List.filter]
      · rw [hfold, i2]
        simp [latencyLoop, hq, List.filter]
        omega
      · rw [hfold, i3]
        simp [latencyLoop, hq, List.filter]
        omega
      · rw [hfold, i4]
        simp [latencyLoop, hq, List.filter]
      · rw [hfold, i5]
        simp [latencyLoop, hq, List.filter]
    · refine ⟨?_, ?_, ?_, ?_, ?_⟩
      · rw [hfold, i1]
        simp [latencyLoop, hq, List.filter]
      · rw [hfold, i2]
        simp [latencyLoop, hq, List.filter]
      · rw [hfold, i3]
        simp [latencyLoop, hq, List.filter]
      · rw [hfold, i4]
        simp [latencyLoop, hq, List.filter]
      · rw [hfold, i5]
        simp [latencyLoop, hq, List.filter]

/-- C7 (amended): on a nonempty history with at least one qualifying
(successful, positive-latency) sample, the average and P95 are computed over
exactly the qualifying samples — the latencies sorted ascending, P95 at index
`⌊0.95·n⌋` clamped to the last index — while min/max are seeded from the
FIRST history entry's latency and then tightened only by qualifying
samples. -/
theorem latency_stats_spec (first : CheckDataPoint) (rest : List CheckDataPoint)
    (hne : ((first :: rest).filter qualSample) ≠ []) :
    (latencyStats (first :: rest)).avgLatency =
      (((((first :: rest).filter qualSample).map (·.latencyMS)).sum : Int) : Rat) /
        (((((first :: rest).filter qualSample).map (·.latencyMS)).length : Int) : Rat) ∧
    (latencyStats (first :: rest)).p95Latency =
      (List.insertionSort (· ≤ ·)
        (((first :: rest).filter qualSample).map (·.latencyMS))).getD
        (min ((((first :: rest).filter qualSample).map (·.latencyMS)).length * 95 / 100)
          ((((first :: rest).filter qualSample).map (·.latencyMS)).length - 1)) 0 ∧
    (List.insertionSort (· ≤ ·)
      (((first :: rest).filter qualSample).map (·.latencyMS))).Sorted (· ≤ ·) ∧
    (List.insertionSort (· ≤ ·)
      (((first :: rest).filter qualSample).map (·.latencyMS))).Perm
      (((first :: rest).filter qualSample).map (·.latencyMS)) ∧
    (latencyStats (first :: rest)).minLatency =
      (((first :: rest).filter qualSample).map (·.latencyMS)).foldl
        (fun a b => if b < a then b else a) first.latencyMS ∧
    (latencyStats (first :: rest)).maxLatency =
      (((first :: rest).filter qualSample).map (·.latencyMS)).foldl
        (fun a b => if b > a then b else a) first.latencyMS := by
  obtain ⟨f1, f2, f3, f4, f5⟩ :=
    latencyFold_characterization (first :: rest)
      ⟨0, 0, first.latencyMS, first.latencyMS, []⟩
  simp only [List.nil_append, Int.zero_add, zero_add] at f1 f2 f3 f4 f5
  have hlen : (((first :: rest).filter qualSample).map (·.latencyMS)).length ≠ 0 := by
    simp [hne]
  have hpos : 0 <
      ((first :: rest).foldl latencyLoop
        ⟨0, 0, first.latencyMS, first.latencyMS, []⟩).count := by
    rw [f3]
    have : 0 < (((first :: rest).filter qualSample).map (·.latencyMS)).length := by
      omega
    exact_mod_cast this
  have hstats : latencyStats (first :: rest) =
      ⟨(((first :: rest).foldl latencyLoop
          ⟨0, 0, first.latencyMS, first.latencyMS, []⟩).sum : Rat) /
        (((first :: rest).foldl latencyLoop
          ⟨0, 0, first.latencyMS, first.latencyMS, []⟩).count : Rat),
        ((first :: rest).foldl latencyLoop
          ⟨0, 0, first.latencyMS, first.latencyMS, []⟩).minL,
        ((first :: rest).foldl latencyLoop
          ⟨0, 0, first.latencyMS, first.latencyMS, []⟩).maxL,
        (List.insertionSort (· ≤ ·)
          ((first :: rest).foldl latencyLoop
            ⟨0, 0, first.latencyMS, first.latencyMS, []⟩).lats).getD
          (if ((first :: rest).foldl latencyLoop
              ⟨0, 0, first.latencyMS, first.latencyMS, []⟩).lats.length * 95 / 100 ≥
              ((first :: rest).foldl latencyLoop
                ⟨0, 0, first.latencyMS, first.latencyMS, []⟩).lats.length
            then ((first :: rest).foldl latencyLoop
              ⟨0, 0, first.latencyMS, first.latencyMS, []⟩).lats.length - 1
            else ((first :: rest).foldl latencyLoop
              ⟨0, 0, first.latencyMS, first.latencyMS, []⟩).lats.length * 95 / 100) 0⟩ := by
    rw [latencyStats]
    rw [if_pos hpos]
  have hidx : ∀ n : Nat, n ≠ 0 →
      (if n * 95 / 100 ≥ n then n - 1 else n * 95 / 100) = min (n * 95 / 100) (n - 1) := by
    intro n hn
    have h95 : n * 95 / 100 < n := by
      apply Nat.div_lt_of_lt_mul
      omega
    rw [if_neg (by omega)]
    omega
  refine ⟨?_, ?_, List.sorted_insertionSort _ _, List.perm_insertionSort _ _, ?_, ?_⟩
  · rw [hstats]
    simp only
    rw [f2, f3]
  · rw [hstats]
    simp only
    rw [f1, hidx _ hlen]
  · rw [hstats]
    simp only
    rw [f4]
  · rw [hstats]
    simp only
    rw [f5]

/-- Witness for `latency_stats_spec` at a concrete two-sample history. -/
theorem latency_stats_spec_witness :
    (latencyStats [⟨1, true, 4⟩, ⟨2, true, 8⟩]).p95Latency =
      (List.insertionSort (· ≤ ·)
        ((([⟨1, true, 4⟩, ⟨2, true, 8⟩] : List CheckDataPoint).filter
          qualSample).map (·.latencyMS))).getD
        (min (((([⟨1, true, 4⟩, ⟨2, true, 8⟩] : List CheckDataPoint).filter
            qualSample).map (·.latencyMS)).length * 95 / 100)
          (((([⟨1, true, 4⟩, ⟨2, true, 8⟩] : List CheckDataPoint).filter
            qualSample).map (·.latencyMS)).length - 1)) 0 :=
  (latency_stats_spec ⟨1, true, 4⟩ [⟨2, true, 8⟩] (by decide)).2.1

/-- Counterexample to C7 as stated: when the first history entry is a failed
sample with latency 0, the code's `MinLatency` is 0 even though the minimum
over the successful, positive-latency samples is 5. -/
theorem latency_stats_min_counterexample :
    (latencyStats [⟨1, false, 0⟩, ⟨2, true, 5⟩]).minLatency = 0 ∧
    ((([⟨1, false, 0⟩, ⟨2, true, 5⟩] : List CheckDataPoint).filter
      qualSample).map (·.latencyMS)) = [5] ∧
    (0 : Int) ∉ ((([⟨1, false, 0⟩, ⟨2, true, 5⟩] : List CheckDataPoint).filter
      qualSample).map (·.latencyMS)) := by
  refine ⟨?_, by decide, by decide⟩
  have h := (latencyFold_characterization [⟨1, false, 0⟩, ⟨2, true, 5⟩]
    ⟨0, 0, 0, 0, []⟩).2.2.2.1
  rw [latencyStats]
  rw [if_pos (by decide)]
  decide

/-! ## Status store, config mirror, and persistence

`State` holds the runtime `hosts` map and the mirrored declarative
`cfg`; every structural mutation updates both and calls `saveConfigLocked`.
The `Settings` block of the config and the MQTT client are irrelevant to the
claims and omitted; the `checksByID` index is derived state and modelled
separately (pointer-level) below. -/

/-- `config.Check` (the fields `state` reads and writes). -/
structure ConfigCheck where
  type : CheckType
  enabled : Bool
  url : String
  expect : Int
  port : Int
  id : String
  dependsOn : String
  mqttNotify : Bool
deriving DecidableEq, Repr

/-- `config.Host`. -/
structure ConfigHost where
  name : String
  address : String
  healthchecksPingURL : String
  checks : List ConfigCheck
deriving DecidableEq, Repr

/-- `config.Config` (without the notification settings). -/
structure Config where
  hosts : List ConfigHost
deriving DecidableEq, Repr

/-- `state.HostStatus`. -/
structure HostStatus where
  name : String
  address : String
  checks : List CheckStatus
  hcURL : String
deriving DecidableEq, Repr

/-- Go-map lookup over an association list. -/
def alLookup [DecidableEq κ] : List (κ × α) → κ → Option α
  | [], _ => none
  | (k, v) :: rest, key => if k = key then some v else alLookup rest key

/-- Go-map assignment: replace the binding if present, else add one. -/
def alSet [DecidableEq κ] : List (κ × α) → κ → α → List (κ × α)
  | [], key, v => [(key, v)]
  | (k, w) :: rest, key, v =>
    if k = key then (key, v) :: rest else (k, w) :: alSet rest key v

/-- Go-map `delete`: drop the binding for the key. -/
def alRemove [DecidableEq κ] : List (κ × α) → κ → List (κ × α)
  | [], _ => []
  | (k, w) :: rest, key =>
    if k = key then rest else (k, w) :: alRemove rest key

/-- Update the first config host with the given name (the mutation loops all
stop at the first match via `break`). -/
def updateFirstHost : List ConfigHost → String → (ConfigHost → ConfigHost) →
    List ConfigHost
  | [], _, _ => []
  | ch :: rest, name, f =>
    if ch.name = name then f ch :: rest else ch :: updateFirstHost rest name f

/-- Remove the first config host with the given name. -/
def removeFirstHost : List ConfigHost → String → List ConfigHost
  | [], _ => []
  | ch :: rest, name =>
    if ch.name = name then rest else ch :: removeFirstHost rest name

/-- Update the element at a (guarded-in-range) index. -/
def modifyAt (l : List α) (i : Nat) (f : α → α) : List α :=
  match l.get? i with
  | some a => l.set i (f a)
  | none => l

/-- The runtime store with its config mirror, the bound config path, and the
last persisted file image. -/
structure MState where
  hosts : List (String × HostStatus)
  cfg : Config
  configPath : String
  persisted : Option Config
deriving DecidableEq, Repr

/-- The suffix after the last occurrence of a separator (`none` when the
separator does not occur). -/
def afterLast (sep : Char) (l : List Char) : Option (List Char) :=
  l.foldl (fun acc c => if c = sep then some [] else acc.map (· ++ [c])) none

/-- `filepath.Ext`: the suffix starting at the final dot of the final
slash-separated element; empty when there is no dot. -/
def fileExt (p : String) : String :=
  let base := (afterLast '/' p.toList).getD p.toList
  match afterLast '.' base with
  | none => ""
  | some suffix => "." ++ String.mk suffix

/-- The `j < len(hs.Checks)` MQTT-notify sync loop of `saveConfigLocked`. -/
def syncMQTT : List ConfigCheck → List CheckStatus → List ConfigCheck
  | [], _ => []
  | cs, [] => cs
  | c :: cs, h :: hsx => { c with mqttNotify := h.mqttNotify } :: syncMQTT cs hsx

/-- `saveConfigLocked`: a no-op when no path is bound; otherwise sync the
healthchecks URLs and per-check MQTT flags from the runtime state into the
config, then write the config when the extension selects one of the two
supported encodings (the atomic-rename mechanics and serialization are
abstracted into `persisted := some cfg`). -/
def saveConfigLocked (s : MState) : MState :=
  if s.configPath = "" then s
  else
    let cfg : Config :=
      ⟨s.cfg.hosts.map (fun ch =>
        match alLookup s.hosts ch.name with
        | none => ch
        | some hs =>
          { ch with
            healthchecksPingURL := hs.hcURL
            checks := syncMQTT ch.checks hs.checks })⟩
    let s := { s with cfg := cfg }
    let ext := fileExt s.configPath
    if ext = ".yaml" ∨ ext = ".yml" ∨ ext = ".toml" then
      { s with persisted := some s.cfg }
    else s

/-- `State.AddHost`. -/
def addHost (s : MState) (name address hcurl : String) : Except String MState :=
  if (alLookup s.hosts name).isSome then .error "host exists"
  else
    let hs : HostStatus :=
      ⟨name, address, [initCheckStatus .ping true "" "" false "" 0 0], hcurl⟩
    let s := { s with
      hosts := alSet s.hosts name hs
      cfg := ⟨s.cfg.hosts ++
        [⟨name, address, hcurl, [⟨.ping, true, "", 0, 0, "", "", false⟩]⟩]⟩ }
    .ok (saveConfigLocked s)

/-- `State.AddHostWithoutDefaultCheck`. -/
def addHostWithoutDefaultCheck (s : MState) (name address hcurl : String) :
    Except String MState :=
  if (alLookup s.hosts name).isSome then .error "host exists"
  else
    let hs : HostStatus := ⟨name, address, [], hcurl⟩
    let s := { s with
      hosts := alSet s.hosts name hs
      cfg := ⟨s.cfg.hosts ++ [⟨name, address, hcurl, []⟩]⟩ }
    .ok (saveConfigLocked s)

/-- `State.UpdateHost`. -/
def updateHost (s : MState) (oldName newName address hcurl : String) :
    Except String MState :=
  match alLookup s.hosts oldName with
  | none => .error "host not found"
  | some hs =>
    if newName ≠ oldName ∧ (alLookup s.hosts newName).isSome then
      .error "host name already exists"
    else
      let hs := { hs with name := newName, address := address, hcURL := hcurl }
      let hosts :=
        if newName ≠ oldName then alSet (alRemove s.hosts oldName) newName hs
        else alSet s.hosts oldName hs
      let s := { s with
        hosts := hosts
        cfg := ⟨updateFirstHost s.cfg.hosts oldName (fun ch =>
          { ch with name := newName, address := address,
                    healthchecksPingURL := hcurl })⟩ }
      .ok (saveConfigLocked s)

/-- `State.DeleteHost`. -/
def deleteHost (s : MState) (name : String) : Except String MState :=
  if (alLookup s.hosts name).isNone then .error "host not found"
  else
    let s := { s with
      hosts := alRemove s.hosts name
      cfg := ⟨removeFirstHost s.cfg.hosts name⟩ }
    .ok (saveConfigLocked s)

/-- `State.AddHTTPCheck` (also rebuilds the ID index in the source). -/
def addHTTPCheck (s : MState) (hostName url : String) (expect : Int)
    (id dependsOn : String) (mqttNotify : Bool) : Except String MState :=
  match alLookup s.hosts hostName with
  | none => .error "host not found"
  | some hs =>
    let hs := { hs with checks := hs.checks ++
      [initCheckStatus .http true id dependsOn mqttNotify url expect 0] }
    let s := { s with
      hosts := alSet s.hosts hostName hs
      cfg := ⟨updateFirstHost s.cfg.hosts hostName (fun ch =>
        { ch with checks := ch.checks ++
          [⟨.http, true, url, expect, 0, id, dependsOn, mqttNotify⟩] })⟩ }
    .ok (saveConfigLocked s)

/-- `State.AddPingCheck`. -/
def addPingCheck (s : MState) (hostName id dependsOn : String)
    (mqttNotify : Bool) : Except String MState :=
  match alLookup s.hosts hostName with
  | none => .error "host not found"
  | some hs =>
    let hs := { hs with checks := hs.checks ++
      [initCheckStatus .ping true id dependsOn mqttNotify "" 0 0] }
    let s := { s with
      hosts := alSet s.hosts hostName hs
      cfg := ⟨updateFirstHost s.cfg.hosts hostName (fun ch =>
        { ch with checks := ch.checks ++
          [⟨.ping, true, "", 0, 0, id, dependsOn, mqttNotify⟩] })⟩ }
    .ok (saveConfigLocked s)

/-- `State.AddTCPCheck`. -/
def addTCPCheck (s : MState) (hostName : String) (port : Int)
    (id dependsOn : String) (mqttNotify : Bool) : Except String MState :=
  match alLookup s.hosts hostName with
  | none => .error "host not found"
  | some hs =>
    let hs := { hs with checks := hs.checks ++
      [initCheckStatus .tcp true id dependsOn mqttNotify "" 0 port] }
    let s := { s with
      hosts := alSet s.hosts hostName hs
      cfg := ⟨updateFirstHost s.cfg.hosts hostName (fun ch =>
        { ch with checks := ch.checks ++
          [⟨.tcp, true, "", 0, port, id, dependsOn, mqttNotify⟩] })⟩ }
    .ok (saveConfigLocked s)

/-- `State.RemoveCheck`. -/
def removeCheck (s : MState) (hostName : String) (idx : Nat) :
    Except String MState :=
  match alLookup s.hosts hostName with
  | none => .error "host not found"
  | some hs =>
    if idx ≥ hs.checks.length then .error "bad index"
    else
      let hs := { hs with checks := hs.checks.eraseIdx idx }
      let s := { s with
        hosts := alSet s.hosts hostName hs
        cfg := ⟨updateFirstHost s.cfg.hosts hostName (fun ch =>
          if idx ≥ ch.checks.length then ch
          else { ch with checks := ch.checks.eraseIdx idx })⟩ }
      .ok (saveConfigLocked s)

/-- `State.UpdateHTTPCheck`. -/
def updateHTTPCheck (s : MState) (hostName : String) (idx : Nat)
    (url : String) (expect : Int) (id dependsOn : String) (mqttNotify : Bool) :
    Except String MState :=
  match alLookup s.hosts hostName with
  | none => .error "host not found"
  | some hs =>
    if idx ≥ hs.checks.length then .error "bad index"
    else if (hs.checks.getD idx (initCheckStatus .ping true "" "" false "" 0 0)).type
        ≠ .http then .error "not http check"
    else
      let hs := { hs with checks := modifyAt hs.checks idx (fun c =>
        { c with url := url, expect := expect, id := id,
                 dependsOn := dependsOn, mqttNotify := mqttNotify }) }
      let s := { s with
        hosts := alSet s.hosts hostName hs
        cfg := ⟨updateFirstHost s.cfg.hosts hostName (fun ch =>
          if idx ≥ ch.checks.length then ch
          else { ch with checks := modifyAt ch.checks idx (fun c =>
            { c with url := url, expect := expect, id := id,
                     dependsOn := dependsOn, mqttNotify := mqttNotify }) })⟩ }
      .ok (saveConfigLocked s)

/-- `State.UpdateTCPCheck`. -/
def updateTCPCheck (s : MState) (hostName : String) (idx : Nat) (port : Int)
    (id dependsOn : String) (mqttNotify : Bool) : Except String MState :=
  match alLookup s.hosts hostName with
  | none => .error "host not found"
  | some hs =>
    if idx ≥ hs.checks.length then .error "bad index"
    else if (hs.checks.getD idx (initCheckStatus .ping true "" "" false "" 0 0)).type
        ≠ .tcp then .error "not tcp check"
    else
      let hs := { hs with checks := modifyAt hs.checks idx (fun c =>
        { c with port := port, id := id, dependsOn := dependsOn,
                 mqttNotify := mqttNotify }) }
      let s := { s with
        hosts := alSet s.hosts hostName hs
        cfg := ⟨updateFirstHost s.cfg.hosts hostName (fun ch =>
          if idx ≥ ch.checks.length then ch
          else { ch with checks := modifyAt ch.checks idx (fun c =>
            { c with port := port, id := id, dependsOn := dependsOn,
                     mqttNotify := mqttNotify }) })⟩ }
      .ok (saveConfigLocked s)

/-- `State.UpdateCheckDependencies`. -/
def updateCheckDependencies (s : MState) (hostName : String) (idx : Nat)
    (id dependsOn : String) (mqttNotify : Bool) : Except String MState :=
  match alLookup s.hosts hostName with
  | none => .error "host not found"
  | some hs =>
    if idx ≥ hs.checks.length then .error "bad index"
    else
      let hs := { hs with checks := modifyAt hs.checks idx (fun c =>
        { c with id := id, dependsOn := dependsOn, mqttNotify := mqttNotify }) }
      let s := { s with
        hosts := alSet s.hosts hostName hs
        cfg := ⟨updateFirstHost s.cfg.hosts hostName (fun ch =>
          if idx ≥ ch.checks.length then ch
          else { ch with checks := modifyAt ch.checks idx (fun c =>
            { c with id := id, dependsOn := dependsOn,
                     mqttNotify := mqttNotify }) })⟩ }
      .ok (saveConfigLocked s)

/-- `State.Toggle`: flips only the runtime `Enabled` flag — the config mirror
is not touched and `saveConfigLocked` is not called. -/
def toggle (s : MState) (hostName : String) (idx : Nat) (enabled : Bool) :
    MState :=
  match alLookup s.hosts hostName with
  | none => s
  | some hs =>
    if idx < hs.checks.length then
      { s with
        hosts := alSet s.hosts hostName
          { hs with
            checks := modifyAt hs.checks idx
              (fun c => { c with enabled := enabled }) } }
    else s

/-- `State.SetAllEnabled`: flips every runtime `Enabled` flag; the config
mirror is not touched and `saveConfigLocked` is not called. -/
def setAllEnabled (s : MState) (enabled : Bool) : MState :=
  { s with
    hosts := s.hosts.map (fun p =>
      (p.1, { p.2 with
              checks := p.2.checks.map
                (fun c => { c with enabled := enabled }) })) }

/-! ## Agreement between the runtime store and the config mirror -/

/-- A runtime check status agrees with its declarative counterpart on the
shared fields (`New` copies `url`/`expect` only for http checks and `port`
only for tcp checks, so the type-specific fields are compared per type). -/
def checkAgrees (cs : CheckStatus) (cc : ConfigCheck) : Prop :=
  cs.type = cc.type ∧ cs.enabled = cc.enabled ∧ cs.id = cc.id ∧
  cs.dependsOn = cc.dependsOn ∧ cs.mqttNotify = cc.mqttNotify ∧
  (cc.type = .http → cs.url = cc.url ∧ cs.expect = cc.expect) ∧
  (cc.type = .tcp → cs.port = cc.port)

/-- A runtime host agrees with its declarative counterpart: same identity,
same check count and order, agreeing check fields. -/
def hostAgrees (hs : HostStatus) (ch : ConfigHost) : Prop :=
  hs.name = ch.name ∧ hs.address = ch.address ∧
  hs.hcURL = ch.healthchecksPingURL ∧
  List.Forall₂ checkAgrees hs.checks ch.checks

/-- The two representations agree: config host names are unique, runtime map
keys are unique, every config host has an agreeing runtime entry, and every
runtime entry is declared. -/
def inSync (s : MState) : Prop :=
  (s.cfg.hosts.map (·.name)).Nodup ∧
  (s.hosts.map Prod.fst).Nodup ∧
  (∀ ch ∈ s.cfg.hosts, ∃ hs, alLookup s.hosts ch.name = some hs ∧
    hostAgrees hs ch) ∧
  (∀ p ∈ s.hosts, ∃ ch ∈ s.cfg.hosts, ch.name = p.1)

section AssocLemmas

variable {κ : Type} {α : Type} [DecidableEq κ]

lemma alLookup_alSet (l : List (κ × α)) (k : κ) (v : α) (q : κ) :
    alLookup (alSet l k v) q = if q = k then some v else alLookup l q := by
  induction l with
  | nil =>
    by_cases h : q = k
    · subst h
      simp [alSet, alLookup]
    · simp [alSet, alLookup, h, Ne.symm h]
  | cons p rest ih =>
    obtain ⟨k0, v0⟩ := p
    by_cases h0 : k0 = k
    · subst h0
      by_cases h : q = k0
      · subst h
        simp [alSet, alLookup]
      · simp [alSet, alLookup, h, Ne.symm h]
    · by_cases h : q = k0
      · subst h
        simp [alSet, alLookup, h0, fun hh : q = k => h0 (hh ▸ rfl)]
      · simp [alSet, alLookup, h0, Ne.symm h, ih]

lemma mem_alSet (l : List (κ × α)) (k : κ) (v : α) (p : κ × α)
    (hm : p ∈ alSet l k v) : p = (k, v) ∨ p ∈ l := by
  induction l with
  | nil => simpa [alSet] using hm
  | cons q rest ih =>
    by_cases h0 : q.1 = k
    · rw [show (q :: rest : List (κ × α)) = (q.1, q.2) :: rest by simp,
        alSet] at hm
      rw [if_pos h0] at hm
      rcases List.mem_cons.mp hm with h | h
      · exact Or.inl h
      · exact Or.inr (List.mem_cons_of_mem _ h)
    · rw [show (q :: rest : List (κ × α)) = (q.1, q.2) :: rest by simp,
        alSet] at hm
      rw [if_neg h0] at hm
      rcases List.mem_cons.mp hm with h | h
      · exact Or.inr (by simp [h])
      · rcases ih h with h | h
        · exact Or.inl h
        · exact Or.inr (List.mem_cons_of_mem _ h)

lemma alSet_keys_of_found (l : List (κ × α)) (k : κ) (v : α)
    (h : (alLookup l k).isSome) :
    (alSet l k v).map Prod.fst = l.map Prod.fst := by
  induction l with
  | nil => simp [alLookup] at h
  | cons p rest ih =>
    obtain ⟨k0, v0⟩ := p
    by_cases h0 : k0 = k
    · simp [alSet, h0]
    · rw [alLookup, if_neg h0] at h
      simp [alSet, h0, ih h]

lemma alSet_keys_of_none (l : List (κ × α)) (k : κ) (v : α)
    (h : alLookup l k = none) :
    (alSet l k v).map Prod.fst = l.map Prod.fst ++ [k] := by
  induction l with
  | nil => simp [alSet]
  | cons p rest ih =>
    obtain ⟨k0, v0⟩ := p
    by_cases h0 : k0 = k
    · rw [alLookup, if_pos h0] at h
      exact absurd h (by simp)
    · rw [alLookup, if_neg h0] at h
      simp [alSet, h0, ih h]

lemma alLookup_eq_none_iff (l : List (κ × α)) (k : κ) :
    alLookup l k = none ↔ k ∉ l.map Prod.fst := by
  induction l with
  | nil => simp [alLookup]
  | cons p rest ih =>
    obtain ⟨k0, v0⟩ := p
    by_cases h0 : k0 = k <;> simp [alLookup, h0, ih] <;> tauto

lemma mem_alRemove (l : List (κ × α)) (k : κ) (p : κ × α)
    (hm : p ∈ alRemove l k) : p ∈ l := by
  induction l with
  | nil => simpa [alRemove] using hm
  | cons q rest ih =>
    rw [show (q :: rest : List (κ × α)) = (q.1, q.2) :: rest by simp,
      alRemove] at hm
    by_cases h0 : q.1 = k
    · rw [if_pos h0] at hm
      exact List.mem_cons_of_mem _ hm
    · rw [if_neg h0] at hm
      rcases List.mem_cons.mp hm with h | h
      · simp [h]
      · exact List.mem_cons_of_mem _ (ih h)

lemma alRemove_keys_sublist (l : List (κ × α)) (k : κ) :
    List.Sublist ((alRemove l k).map Prod.fst) (l.map Prod.fst) := by
  induction l with
  | nil => simp [alRemove]
  | cons q rest ih =>
    rw [show (q :: rest : List (κ × α)) = (q.1, q.2) :: rest by simp, alRemove]
    by_cases h0 : q.1 = k
    · rw [if_pos h0]
      simp only [List.map_cons]
      exact List.Sublist.cons _ (List.Sublist.refl _)
    · rw [if_neg h0]
      simp only [List.map_cons]
      exact List.Sublist.cons₂ _ ih

lemma alLookup_alRemove_ne (l : List (κ × α)) (k q : κ) (h : q ≠ k) :
    alLookup (alRemove l k) q = alLookup l q := by
  induction l with
  | nil => simp [alRemove]
  | cons p rest ih =>
    obtain ⟨k0, v0⟩ := p
    by_cases h0 : k0 = k
    · subst h0
      simp [alRemove, alLookup, Ne.symm h]
    · by_cases hq : k0 = q <;> simp [alRemove, alLookup, h0, hq, h, ih]

lemma mem_alRemove_ne (l : List (κ × α)) (k : κ) (p : κ × α)
    (hnd : (l.map Prod.fst).Nodup) (hm : p ∈ alRemove l k) : p.1 ≠ k := by
  induction l with
  | nil => simp [alRemove] at hm
  | cons q rest ih =>
    rw [show (q :: rest : List (κ × α)) = (q.1, q.2) :: rest by simp,
      alRemove] at hm
    simp only [List.map_cons, List.nodup_cons] at hnd
    by_cases h0 : q.1 = k
    · rw [if_pos h0] at hm
      intro hk
      have hin : p.1 ∈ List.map Prod.fst rest := List.mem_map_of_mem _ hm
      rw [hk, ← h0] at hin
      exact hnd.1 hin
    · rw [if_neg h0] at hm
      rcases List.mem_cons.mp hm with h | h
      · rw [h]
        exact h0
      · exact ih hnd.2 h

end AssocLemmas

lemma alLookup_mem [DecidableEq κ] (l : List (κ × α)) (k : κ) (v : α)
    (h : alLookup l k = some v) : (k, v) ∈ l := by
  induction l with
  | nil => simp [alLookup] at h
  | cons p rest ih =>
    obtain ⟨k0, v0⟩ := p
    by_cases h0 : k0 = k
    · rw [alLookup, if_pos h0] at h
      simp only [Option.some.injEq] at h
      simp [h0, h]
    · rw [alLookup, if_neg h0] at h
      exact List.mem_cons_of_mem _ (ih h)

lemma alLookup_isSome_of_mem [DecidableEq κ] (l : List (κ × α)) (p : κ × α)
    (h : p ∈ l) : (alLookup l p.1).isSome := by
  induction l with
  | nil => simp at h
  | cons q rest ih =>
    obtain ⟨k0, v0⟩ := q
    rcases List.mem_cons.mp h with h | h
    · subst h
      simp [alLookup]
    · by_cases h0 : k0 = p.1 <;> simp [alLookup, h0, ih h]

lemma updateFirstHost_map_name (l : List ConfigHost) (n : String)
    (f : ConfigHost → ConfigHost) (hf : ∀ ch, ch.name = n → (f ch).name = ch.name) :
    (updateFirstHost l n f).map (·.name) = l.map (·.name) := by
  induction l with
  | nil => simp [updateFirstHost]
  | cons ch rest ih =>
    by_cases h0 : ch.name = n <;> simp [updateFirstHost, h0, hf ch, ih]

lemma mem_updateFirstHost (l : List ConfigHost) (n : String)
    (f : ConfigHost → ConfigHost) (hnd : (l.map (·.name)).Nodup)
    (ch' : ConfigHost) (hm : ch' ∈ updateFirstHost l n f) :
    (ch' ∈ l ∧ ch'.name ≠ n) ∨ ∃ ch, ch ∈ l ∧ ch.name = n ∧ ch' = f ch := by
  induction l with
  | nil => simp [updateFirstHost] at hm
  | cons ch rest ih =>
    simp only [List.map_cons, List.nodup_cons] at hnd
    rw [updateFirstHost] at hm
    by_cases h0 : ch.name = n
    · rw [if_pos h0] at hm
      rcases List.mem_cons.mp hm with h | h
      · exact Or.inr ⟨ch, by simp, h0, h⟩
      · refine Or.inl ⟨List.mem_cons_of_mem _ h, ?_⟩
        intro hn
        exact hnd.1 (by rw [h0, ← hn]; exact List.mem_map_of_mem _ h)
    · rw [if_neg h0] at hm
      rcases List.mem_cons.mp hm with h | h
      · exact Or.inl ⟨by simp [h], by rw [h]; exact h0⟩
      · rcases ih hnd.2 h with ⟨h1, h2⟩ | ⟨ch0, h1, h2, h3⟩
        · exact Or.inl ⟨List.mem_cons_of_mem _ h1, h2⟩
        · exact Or.inr ⟨ch0, List.mem_cons_of_mem _ h1, h2, h3⟩

lemma exists_updateFirstHost (l : List ConfigHost) (n : String)
    (f : ConfigHost → ConfigHost) (ch : ConfigHost) (hm : ch ∈ l)
    (hn : ch.name = n) :
    ∃ ch0, ch0 ∈ l ∧ ch0.name = n ∧ f ch0 ∈ updateFirstHost l n f := by
  induction l with
  | nil => simp at hm
  | cons ch1 rest ih =>
    by_cases h0 : ch1.name = n
    · exact ⟨ch1, by simp, h0, by simp [updateFirstHost, h0]⟩
    · rcases List.mem_cons.mp hm with h | h
      · exact absurd (h ▸ hn) h0
      · obtain ⟨ch0, m1, m2, m3⟩ := ih h
        exact ⟨ch0, List.mem_cons_of_mem _ m1,
          m2, by simp [updateFirstHost, h0, m3]⟩

lemma mem_updateFirstHost_of_ne (l : List ConfigHost) (n : String)
    (f : ConfigHost → ConfigHost) (ch : ConfigHost) (hm : ch ∈ l)
    (hn : ch.name ≠ n) : ch ∈ updateFirstHost l n f := by
  induction l with
  | nil => simp at hm
  | cons ch1 rest ih =>
    rw [updateFirstHost]
    by_cases h0 : ch1.name = n
    · rw [if_pos h0]
      rcases List.mem_cons.mp hm with h | h
      · exact absurd (h ▸ h0) hn
      · exact List.mem_cons_of_mem _ h
    · rw [if_neg h0]
      rcases List.mem_cons.mp hm with h | h
      · simp [h]
      · exact List.mem_cons_of_mem _ (ih h)

lemma removeFirstHost_map_sublist (l : List ConfigHost) (n : String) :
    List.Sublist ((removeFirstHost l n).map (·.name)) (l.map (·.name)) := by
  induction l with
  | nil => simp [removeFirstHost]
  | cons ch rest ih =>
    rw [removeFirstHost]
    by_cases h0 : ch.name = n
    · rw [if_pos h0]
      simp only [List.map_cons]
      exact List.Sublist.cons _ (List.Sublist.refl _)
    · rw [if_neg h0]
      simp only [List.map_cons]
      exact List.Sublist.cons₂ _ ih

lemma mem_removeFirstHost (l : List ConfigHost) (n : String)
    (hnd : (l.map (·.name)).Nodup) (ch : ConfigHost)
    (hm : ch ∈ removeFirstHost l n) : ch ∈ l ∧ ch.name ≠ n := by
  induction l with
  | nil => simp [removeFirstHost] at hm
  | cons ch1 rest ih =>
    simp only [List.map_cons, List.nodup_cons] at hnd
    rw [removeFirstHost] at hm
    by_cases h0 : ch1.name = n
    · rw [if_pos h0] at hm
      refine ⟨List.mem_cons_of_mem _ hm, ?_⟩
      intro hn
      exact hnd.1 (by rw [h0, ← hn]; exact List.mem_map_of_mem _ hm)
    · rw [if_neg h0] at hm
      rcases List.mem_cons.mp hm with h | h
      · exact ⟨by simp [h], by rw [h]; exact h0⟩
      · obtain ⟨m1, m2⟩ := ih hnd.2 h
        exact ⟨List.mem_cons_of_mem _ m1, m2⟩

lemma mem_removeFirstHost_of_ne (l : List ConfigHost) (n : String)
    (ch : ConfigHost) (hm : ch ∈ l) (hn : ch.name ≠ n) :
    ch ∈ removeFirstHost l n := by
  induction l with
  | nil => simp at hm
  | cons ch1 rest ih =>
    rw [removeFirstHost]
    by_cases h0 : ch1.name = n
    · rw [if_pos h0]
      rcases List.mem_cons.mp hm with h | h
      · exact absurd (h ▸ h0) hn
      · exact h
    · rw [if_neg h0]
      rcases List.mem_cons.mp hm with h | h
      · simp [h]
      · exact List.mem_cons_of_mem _ (ih h)

lemma syncMQTT_of_forall₂ (cs : List CheckStatus) (cc : List ConfigCheck)
    (h : List.Forall₂ checkAgrees cs cc) : syncMQTT cc cs = cc := by
  induction h with
  | nil => rfl
  | cons hab hrest ih =>
    rw [syncMQTT, ih]
    congr 1
    have hm := hab.2.2.2.2.1
    rw [hm]

lemma inSync_of_eq (s s' : MState) (hh : s'.hosts = s.hosts)
    (hc : s'.cfg = s.cfg) (h : inSync s) : inSync s' := by
  unfold inSync at h ⊢
  rw [hh, hc]
  exact h

/-- `saveConfigLocked` under agreement: the URL/MQTT sync is the identity, so
the config is unchanged, the runtime state untouched, agreement is preserved,
and with a bound path in a supported encoding the written image equals the
config. -/
lemma saveConfigLocked_spec (s : MState) (hsync : inSync s) :
    (saveConfigLocked s).cfg = s.cfg ∧
    (saveConfigLocked s).hosts = s.hosts ∧
    (saveConfigLocked s).configPath = s.configPath ∧
    inSync (saveConfigLocked s) ∧
    (s.configPath ≠ "" →
      (fileExt s.configPath = ".yaml" ∨ fileExt s.configPath = ".yml" ∨
        fileExt s.configPath = ".toml") →
      (saveConfigLocked s).persisted = some s.cfg) := by
  obtain ⟨nd1, nd2, h3, h4⟩ := hsync
  have hmap : s.cfg.hosts.map (fun ch =>
      match alLookup s.hosts ch.name with
      | none => ch
      | some hs =>
        { ch with
          healthchecksPingURL := hs.hcURL
          checks := syncMQTT ch.checks hs.checks }) = s.cfg.hosts := by
    have hpt : ∀ ch ∈ s.cfg.hosts, (match alLookup s.hosts ch.name with
        | none => ch
        | some hs =>
          ({ ch with
            healthchecksPingURL := hs.hcURL
            checks := syncMQTT ch.checks hs.checks } : ConfigHost)) = ch := by
      intro ch hch
      obtain ⟨hs, hlk, hag⟩ := h3 ch hch
      rw [hlk]
      simp only [syncMQTT_of_forall₂ _ _ hag.2.2.2, hag.2.2.1]
    calc s.cfg.hosts.map _ = s.cfg.hosts.map id := List.map_congr_left hpt
      _ = s.cfg.hosts := List.map_id _
  by_cases hp : s.configPath = ""
  · rw [saveConfigLocked, if_pos hp]
    exact ⟨rfl, rfl, rfl, ⟨nd1, nd2, h3, h4⟩, fun h _ => absurd hp h⟩
  · rw [saveConfigLocked, if_neg hp]
    simp only [hmap]
    by_cases he : fileExt s.configPath = ".yaml" ∨ fileExt s.configPath = ".yml" ∨
        fileExt s.configPath = ".toml"
    · rw [if_pos he]
      exact ⟨rfl, rfl, rfl,
        inSync_of_eq _ _ rfl rfl ⟨nd1, nd2, h3, h4⟩, fun _ _ => rfl⟩
    · rw [if_neg he]
      exact ⟨rfl, rfl, rfl,
        inSync_of_eq _ _ rfl rfl ⟨nd1, nd2, h3, h4⟩, fun _ hx => absurd hx he⟩

/-- Mutating one named host in both representations with agreeing updates
preserves agreement. -/
lemma inSync_modifyNamedHost (s : MState) (n : String) (hs₀ hsNew : HostStatus)
    (Fc : ConfigHost → ConfigHost) (p' : String) (o' : Option Config)
    (hsync : inSync s) (hlk : alLookup s.hosts n = some hs₀)
    (hname : ∀ ch, ch.name = n → (Fc ch).name = ch.name)
    (hagree : ∀ ch, hostAgrees hs₀ ch → hostAgrees hsNew (Fc ch)) :
    inSync ⟨alSet s.hosts n hsNew, ⟨updateFirstHost s.cfg.hosts n Fc⟩, p', o'⟩ := by
  obtain ⟨nd1, nd2, h3, h4⟩ := hsync
  refine ⟨?_, ?_, ?_, ?_⟩
  · show ((updateFirstHost s.cfg.hosts n Fc).map (·.name)).Nodup
    rw [updateFirstHost_map_name _ _ _ hname]
    exact nd1
  · show ((alSet s.hosts n hsNew).map Prod.fst).Nodup
    rw [alSet_keys_of_found _ _ _ (by rw [hlk]; rfl)]
    exact nd2
  · intro ch' hm
    rcases mem_updateFirstHost _ _ _ nd1 ch' hm with ⟨hin, hne⟩ | ⟨ch, hin, hnm, heq⟩
    · obtain ⟨hs, hl, hag⟩ := h3 ch' hin
      refine ⟨hs, ?_, hag⟩
      show alLookup (alSet s.hosts n hsNew) ch'.name = some hs
      rw [alLookup_alSet, if_neg hne]
      exact hl
    · subst heq
      refine ⟨hsNew, ?_, ?_⟩
      · show alLookup (alSet s.hosts n hsNew) (Fc ch).name = some hsNew
        rw [alLookup_alSet, if_pos (by rw [hname ch hnm, hnm])]
      · apply hagree
        obtain ⟨hs, hl, hag⟩ := h3 ch hin
        rw [hnm, hlk] at hl
        cases hl
        exact hag
  · intro p hm
    rcases mem_alSet _ _ _ _ hm with heq | hin
    · subst heq
      obtain ⟨ch, hin, hnm⟩ := h4 (n, hs₀) (alLookup_mem _ _ _ hlk)
      obtain ⟨ch0, m1, m2, m3⟩ := exists_updateFirstHost s.cfg.hosts n Fc ch hin hnm
      exact ⟨Fc ch0, m3, (hname ch0 m2).trans m2⟩
    · obtain ⟨ch, hcin, hnm⟩ := h4 p hin
      by_cases hpn : p.1 = n
      · obtain ⟨ch0, m1, m2, m3⟩ := exists_updateFirstHost s.cfg.hosts n Fc ch hcin
          (by rw [hnm, hpn])
        exact ⟨Fc ch0, m3, (hname ch0 m2).trans (m2.trans hpn.symm)⟩
      · exact ⟨ch, mem_updateFirstHost_of_ne _ _ _ ch hcin (by rw [hnm]; exact hpn),
          hnm⟩

/-- Appending a fresh host to both representations preserves agreement. -/
lemma inSync_addNewHost (s : MState) (n : String) (hsNew : HostStatus)
    (chNew : ConfigHost) (p' : String) (o' : Option Config)
    (hsync : inSync s) (hlk : alLookup s.hosts n = none)
    (hch : chNew.name = n) (hagree : hostAgrees hsNew chNew) :
    inSync ⟨alSet s.hosts n hsNew, ⟨s.cfg.hosts ++ [chNew]⟩, p', o'⟩ := by
  obtain ⟨nd1, nd2, h3, h4⟩ := hsync
  have hnotin_cfg : n ∉ s.cfg.hosts.map (·.name) := by
    intro hmem
    obtain ⟨ch, hin, hn⟩ := List.mem_map.mp hmem
    obtain ⟨hs, hl, -⟩ := h3 ch hin
    rw [hn, hlk] at hl
    cases hl
  have hnotin_keys : n ∉ s.hosts.map Prod.fst :=
    (alLookup_eq_none_iff _ _).mp hlk
  refine ⟨?_, ?_, ?_, ?_⟩
  · show ((s.cfg.hosts ++ [chNew]).map (·.name)).Nodup
    rw [List.map_append]
    rw [List.nodup_append]
    refine ⟨nd1, by simp, ?_⟩
    intro a ha hb
    simp [hch] at hb
    rw [hb] at ha
    exact hnotin_cfg ha
  · show ((alSet s.hosts n hsNew).map Prod.fst).Nodup
    rw [alSet_keys_of_none _ _ _ hlk, List.nodup_append]
    refine ⟨nd2, by simp, ?_⟩
    intro a ha hb
    simp at hb
    rw [hb] at ha
    exact hnotin_keys ha
  · intro ch' hm
    rcases List.mem_append.mp hm with hin | hin
    · obtain ⟨hs, hl, hag⟩ := h3 ch' hin
      refine ⟨hs, ?_, hag⟩
      show alLookup (alSet s.hosts n hsNew) ch'.name = some hs
      rw [alLookup_alSet, if_neg ?_]
      · exact hl
      · intro he
        exact hnotin_cfg (by rw [← he]; exact List.mem_map_of_mem _ hin)
    · rw [List.mem_singleton.mp hin]
      refine ⟨hsNew, ?_, hagree⟩
      show alLookup (alSet s.hosts n hsNew) chNew.name = some hsNew
      rw [alLookup_alSet, if_pos hch]
  · intro p hm
    rcases mem_alSet _ _ _ _ hm with heq | hin
    · subst heq
      exact ⟨chNew, by simp, hch⟩
    · obtain ⟨ch, hcin, hnm⟩ := h4 p hin
      exact ⟨ch, List.mem_append_left _ hcin, hnm⟩

/-- Removing a host from both representations preserves agreement. -/
lemma inSync_removeHost (s : MState) (n : String) (p' : String)
    (o' : Option Config) (hsync : inSync s) :
    inSync ⟨alRemove s.hosts n, ⟨removeFirstHost s.cfg.hosts n⟩, p', o'⟩ := by
  obtain ⟨nd1, nd2, h3, h4⟩ := hsync
  refine ⟨?_, ?_, ?_, ?_⟩
  · exact nd1.sublist (removeFirstHost_map_sublist _ _)
  · exact nd2.sublist (alRemove_keys_sublist _ _)
  · intro ch' hm
    obtain ⟨hin, hne⟩ := mem_removeFirstHost _ _ nd1 ch' hm
    obtain ⟨hs, hl, hag⟩ := h3 ch' hin
    refine ⟨hs, ?_, hag⟩
    show alLookup (alRemove s.hosts n) ch'.name = some hs
    rw [alLookup_alRemove_ne _ _ _ hne]
    exact hl
  · intro p hm
    have hne := mem_alRemove_ne _ _ _ nd2 hm
    obtain ⟨ch, hcin, hnm⟩ := h4 p (mem_alRemove _ _ _ hm)
    exact ⟨ch, mem_removeFirstHost_of_ne _ _ ch hcin (by rw [hnm]; exact hne), hnm⟩

lemma names_updateFirstHost_subset (l : List ConfigHost) (n m : String)
    (f : ConfigHost → ConfigHost) (hf : ∀ ch, (f ch).name = m) :
    ∀ a ∈ (updateFirstHost l n f).map (·.name),
      a ∈ l.map (·.name) ∨ a = m := by
  induction l with
  | nil => simp [updateFirstHost]
  | cons ch rest ih =>
    intro a ha
    rw [updateFirstHost] at ha
    by_cases h0 : ch.name = n
    · rw [if_pos h0, List.map_cons] at ha
      rcases List.mem_cons.mp ha with h | h
      · exact Or.inr (by rw [h, hf])
      · exact Or.inl (by rw [List.map_cons]; exact List.mem_cons_of_mem _ h)
    · rw [if_neg h0, List.map_cons] at ha
      rcases List.mem_cons.mp ha with h | h
      · exact Or.inl (by rw [List.map_cons, h]; exact List.mem_cons_self _ _)
      · rcases ih a h with hh | hh
        · exact Or.inl (by rw [List.map_cons]; exact List.mem_cons_of_mem _ hh)
        · exact Or.inr hh

lemma nodup_updateFirstHost_rename (l : List ConfigHost) (n m : String)
    (f : ConfigHost → ConfigHost) (hf : ∀ ch, (f ch).name = m)
    (hnd : (l.map (·.name)).Nodup) (hnew : m ∉ l.map (·.name)) :
    ((updateFirstHost l n f).map (·.name)).Nodup := by
  induction l with
  | nil => simp [updateFirstHost]
  | cons ch rest ih =>
    simp only [List.map_cons, List.nodup_cons] at hnd
    have hnew' : m ∉ rest.map (·.name) := by
      intro hx
      exact hnew (List.mem_cons_of_mem _ hx)
    have hnewne : m ≠ ch.name := by
      intro hx
      exact hnew (by rw [hx]; simp)
    rw [updateFirstHost]
    by_cases h0 : ch.name = n
    · rw [if_pos h0]
      simp only [List.map_cons, List.nodup_cons]
      exact ⟨by rw [hf]; exact hnew', hnd.2⟩
    · rw [if_neg h0]
      simp only [List.map_cons, List.nodup_cons]
      refine ⟨?_, ih hnd.2 hnew'⟩
      intro hx
      rcases names_updateFirstHost_subset rest n m f hf _ hx with hh | hh
      · exact hnd.1 hh
      · exact hnewne (hh ▸ rfl)

/-- Renaming one host in both representations (the `UpdateHost` rename path)
preserves agreement. -/
lemma inSync_renameHost (s : MState) (old new : String) (hs₀ : HostStatus)
    (hsNew : HostStatus) (Fc : ConfigHost → ConfigHost) (p' : String)
    (o' : Option Config) (hsync : inSync s) (hne : new ≠ old)
    (hlkOld : alLookup s.hosts old = some hs₀)
    (hlkNew : alLookup s.hosts new = none)
    (hFc : ∀ ch, (Fc ch).name = new) (hhs : hsNew.name = new)
    (hagree : ∀ ch, ch.name = old → hostAgrees hs₀ ch → hostAgrees hsNew (Fc ch)) :
    inSync ⟨alSet (alRemove s.hosts old) new hsNew,
      ⟨updateFirstHost s.cfg.hosts old Fc⟩, p', o'⟩ := by
  obtain ⟨nd1, nd2, h3, h4⟩ := hsync
  have hnew_cfg : new ∉ s.cfg.hosts.map (·.name) := by
    intro hmem
    obtain ⟨ch, hin, hn⟩ := List.mem_map.mp hmem
    obtain ⟨hs, hl, -⟩ := h3 ch hin
    rw [hn, hlkNew] at hl
    cases hl
  have hnew_keys : new ∉ s.hosts.map Prod.fst :=
    (alLookup_eq_none_iff _ _).mp hlkNew
  refine ⟨?_, ?_, ?_, ?_⟩
  · exact nodup_updateFirstHost_rename _ _ _ _ hFc nd1 hnew_cfg
  · show ((alSet (alRemove s.hosts old) new hsNew).map Prod.fst).Nodup
    have hrnone : alLookup (alRemove s.hosts old) new = none := by
      rw [alLookup_alRemove_ne _ _ _ hne]
      exact hlkNew
    rw [alSet_keys_of_none _ _ _ hrnone, List.nodup_append]
    refine ⟨nd2.sublist (alRemove_keys_sublist _ _), by simp, ?_⟩
    intro a ha hb
    simp at hb
    rw [hb] at ha
    exact hnew_keys ((alRemove_keys_sublist s.hosts old).subset ha)
  · intro ch' hm
    rcases mem_updateFirstHost _ _ _ nd1 ch' hm with ⟨hin, hnme⟩ | ⟨ch, hin, hnm, heq⟩
    · obtain ⟨hs, hl, hag⟩ := h3 ch' hin
      have hch'new : ch'.name ≠ new := by
        intro hx
        exact hnew_cfg (by rw [← hx]; exact List.mem_map_of_mem _ hin)
      refine ⟨hs, ?_, hag⟩
      show alLookup (alSet (alRemove s.hosts old) new hsNew) ch'.name = some hs
      rw [alLookup_alSet, if_neg hch'new, alLookup_alRemove_ne _ _ _ hnme]
      exact hl
    · subst heq
      refine ⟨hsNew, ?_, ?_⟩
      · show alLookup (alSet (alRemove s.hosts old) new hsNew) (Fc ch).name
          = some hsNew
        rw [alLookup_alSet, if_pos (hFc ch)]
      · obtain ⟨hs, hl, hag⟩ := h3 ch hin
        rw [hnm, hlkOld] at hl
        cases hl
        exact hagree ch hnm hag
  · intro p hm
    rcases mem_alSet _ _ _ _ hm with heq | hin
    · subst heq
      obtain ⟨ch, hcin, hnm⟩ := h4 (old, hs₀) (alLookup_mem _ _ _ hlkOld)
      obtain ⟨ch0, m1, m2, m3⟩ := exists_updateFirstHost s.cfg.hosts old Fc ch hcin hnm
      exact ⟨Fc ch0, m3, hFc ch0⟩
    · have hne' := mem_alRemove_ne _ _ _ nd2 hin
      obtain ⟨ch, hcin, hnm⟩ := h4 p (mem_alRemove _ _ _ hin)
      exact ⟨ch, mem_updateFirstHost_of_ne _ _ _ ch hcin (by rw [hnm]; exact hne'),
        hnm⟩

lemma modifyAt_nil (i : Nat) (f : α → α) : modifyAt ([] : List α) i f = [] := rfl

lemma modifyAt_cons_zero (a : α) (l : List α) (f : α → α) :
    modifyAt (a :: l) 0 f = f a :: l := rfl

lemma modifyAt_cons_succ (a : α) (l : List α) (i : Nat) (f : α → α) :
    modifyAt (a :: l) (i + 1) f = a :: modifyAt l i f := by
  unfold modifyAt
  cases h : l[i]? with
  | none => simp [List.getElem?_cons_succ, h]
  | some b => simp [List.getElem?_cons_succ, h, List.set]

lemma forall₂_eraseIdx {R : α → β → Prop} :
    ∀ (l₁ : List α) (l₂ : List β) (i : Nat), List.Forall₂ R l₁ l₂ →
      List.Forall₂ R (l₁.eraseIdx i) (l₂.eraseIdx i) := by
  intro l₁ l₂ i h
  induction h generalizing i with
  | nil => simp [List.eraseIdx]
  | cons hab hrest ih =>
    cases i with
    | zero => simpa [List.eraseIdx] using hrest
    | succ i =>
      simp only [List.eraseIdx]
      exact List.Forall₂.cons hab (ih i)

lemma forall₂_modifyAt {R : α → β → Prop} (f : α → α) (g : β → β)
    (hfg : ∀ a b, R a b → R (f a) (g b)) :
    ∀ (l₁ : List α) (l₂ : List β) (i : Nat), List.Forall₂ R l₁ l₂ →
      List.Forall₂ R (modifyAt l₁ i f) (modifyAt l₂ i g) := by
  intro l₁ l₂ i h
  induction h generalizing i with
  | nil => simpa [modifyAt_nil] using List.Forall₂.nil
  | cons hab hrest ih =>
    cases i with
    | zero =>
      rw [modifyAt_cons_zero, modifyAt_cons_zero]
      exact List.Forall₂.cons (hfg _ _ hab) hrest
    | succ i =>
      rw [modifyAt_cons_succ, modifyAt_cons_succ]
      exact List.Forall₂.cons hab (ih i)

lemma forall₂_append_singleton {R : α → β → Prop} {l₁ : List α} {l₂ : List β}
    {a : α} {b : β} (h : List.Forall₂ R l₁ l₂) (hab : R a b) :
    List.Forall₂ R (l₁ ++ [a]) (l₂ ++ [b]) := by
  induction h with
  | nil => simpa using List.Forall₂.cons hab List.Forall₂.nil
  | cons hxy hrest ih => exact List.Forall₂.cons hxy ih

/-- A structural mutation of one named host followed by `saveConfigLocked`:
agreement is preserved, the path is unchanged, and with a bound supported
path the persisted image equals the (post-mutation) config. -/
lemma modifySave_spec (s : MState) (n : String) (hs₀ hsNew : HostStatus)
    (Fc : ConfigHost → ConfigHost)
    (hsync : inSync s) (hlk : alLookup s.hosts n = some hs₀)
    (hname : ∀ ch, ch.name = n → (Fc ch).name = ch.name)
    (hagree : ∀ ch, hostAgrees hs₀ ch → hostAgrees hsNew (Fc ch)) :
    inSync (saveConfigLocked ⟨alSet s.hosts n hsNew,
      ⟨updateFirstHost s.cfg.hosts n Fc⟩, s.configPath, s.persisted⟩) ∧
    (saveConfigLocked ⟨alSet s.hosts n hsNew,
      ⟨updateFirstHost s.cfg.hosts n Fc⟩, s.configPath, s.persisted⟩).configPath
      = s.configPath ∧
    (s.configPath ≠ "" →
      (fileExt s.configPath = ".yaml" ∨ fileExt s.configPath = ".yml" ∨
        fileExt s.configPath = ".toml") →
      (saveConfigLocked ⟨alSet s.hosts n hsNew,
        ⟨updateFirstHost s.cfg.hosts n Fc⟩, s.configPath, s.persisted⟩).persisted
        = some (saveConfigLocked ⟨alSet s.hosts n hsNew,
            ⟨updateFirstHost s.cfg.hosts n Fc⟩, s.configPath,
            s.persisted⟩).cfg) := by
  have hsync₁ := inSync_modifyNamedHost s n hs₀ hsNew Fc s.configPath s.persisted
    hsync hlk hname hagree
  obtain ⟨c1, c2, c3, c4, c5⟩ := saveConfigLocked_spec _ hsync₁
  exact ⟨c4, c3, fun hp he => by rw [c5 hp he, c1]⟩

/-- Appending a fresh host followed by `saveConfigLocked`. -/
lemma addSave_spec (s : MState) (n : String) (hsNew : HostStatus)
    (chNew : ConfigHost)
    (hsync : inSync s) (hlk : alLookup s.hosts n = none)
    (hch : chNew.name = n) (hagree : hostAgrees hsNew chNew) :
    inSync (saveConfigLocked ⟨alSet s.hosts n hsNew,
      ⟨s.cfg.hosts ++ [chNew]⟩, s.configPath, s.persisted⟩) ∧
    (saveConfigLocked ⟨alSet s.hosts n hsNew,
      ⟨s.cfg.hosts ++ [chNew]⟩, s.configPath, s.persisted⟩).configPath
      = s.configPath ∧
    (s.configPath ≠ "" →
      (fileExt s.configPath = ".yaml" ∨ fileExt s.configPath = ".yml" ∨
        fileExt s.configPath = ".toml") →
      (saveConfigLocked ⟨alSet s.hosts n hsNew,
        ⟨s.cfg.hosts ++ [chNew]⟩, s.configPath, s.persisted⟩).persisted
        = some (saveConfigLocked ⟨alSet s.hosts n hsNew,
            ⟨s.cfg.hosts ++ [chNew]⟩, s.configPath, s.persisted⟩).cfg) := by
  have hsync₁ := inSync_addNewHost s n hsNew chNew s.configPath s.persisted
    hsync hlk hch hagree
  obtain ⟨c1, c2, c3, c4, c5⟩ := saveConfigLocked_spec _ hsync₁
  exact ⟨c4, c3, fun hp he => by rw [c5 hp he, c1]⟩

/-- Removing a host followed by `saveConfigLocked`. -/
lemma removeSave_spec (s : MState) (n : String) (hsync : inSync s) :
    inSync (saveConfigLocked ⟨alRemove s.hosts n,
      ⟨removeFirstHost s.cfg.hosts n⟩, s.configPath, s.persisted⟩) ∧
    (saveConfigLocked ⟨alRemove s.hosts n,
      ⟨removeFirstHost s.cfg.hosts n⟩, s.configPath, s.persisted⟩).configPath
      = s.configPath ∧
    (s.configPath ≠ "" →
      (fileExt s.configPath = ".yaml" ∨ fileExt s.configPath = ".yml" ∨
        fileExt s.configPath = ".toml") →
      (saveConfigLocked ⟨alRemove s.hosts n,
        ⟨removeFirstHost s.cfg.hosts n⟩, s.configPath, s.persisted⟩).persisted
        = some (saveConfigLocked ⟨alRemove s.hosts n,
            ⟨removeFirstHost s.cfg.hosts n⟩, s.configPath,
            s.persisted⟩).cfg) := by
  have hsync₁ := inSync_removeHost s n s.configPath s.persisted hsync
  obtain ⟨c1, c2, c3, c4, c5⟩ := saveConfigLocked_spec _ hsync₁
  exact ⟨c4, c3, fun hp he => by rw [c5 hp he, c1]⟩

/-- Renaming a host followed by `saveConfigLocked`. -/
lemma renameSave_spec (s : MState) (old new : String) (hs₀ hsNew : HostStatus)
    (Fc : ConfigHost → ConfigHost)
    (hsync : inSync s) (hne : new ≠ old)
    (hlkOld : alLookup s.hosts old = some hs₀)
    (hlkNew : alLookup s.hosts new = none)
    (hFc : ∀ ch, (Fc ch).name = new) (hhs : hsNew.name = new)
    (hagree : ∀ ch, ch.name = old → hostAgrees hs₀ ch →
      hostAgrees hsNew (Fc ch)) :
    inSync (saveConfigLocked ⟨alSet (alRemove s.hosts old) new hsNew,
      ⟨updateFirstHost s.cfg.hosts old Fc⟩, s.configPath, s.persisted⟩) ∧
    (saveConfigLocked ⟨alSet (alRemove s.hosts old) new hsNew,
      ⟨updateFirstHost s.cfg.hosts old Fc⟩, s.configPath,
      s.persisted⟩).configPath = s.configPath ∧
    (s.configPath ≠ "" →
      (fileExt s.configPath = ".yaml" ∨ fileExt s.configPath = ".yml" ∨
        fileExt s.configPath = ".toml") →
      (saveConfigLocked ⟨alSet (alRemove s.hosts old) new hsNew,
        ⟨updateFirstHost s.cfg.hosts old Fc⟩, s.configPath,
        s.persisted⟩).persisted
        = some (saveConfigLocked ⟨alSet (alRemove s.hosts old) new hsNew,
            ⟨updateFirstHost s.cfg.hosts old Fc⟩, s.configPath,
            s.persisted⟩).cfg) := by
  have hsync₁ := inSync_renameHost s old new hs₀ hsNew Fc s.configPath
    s.persisted hsync hne hlkOld hlkNew hFc hhs hagree
  obtain ⟨c1, c2, c3, c4, c5⟩ := saveConfigLocked_spec _ hsync₁
  exact ⟨c4, c3, fun hp he => by rw [c5 hp he, c1]⟩

/-- `Toggle` touches neither the config mirror, nor the persisted image, nor
the path. -/
lemma toggle_frame (s : MState) (n : String) (i : Nat) (e : Bool) :
    (toggle s n i e).cfg = s.cfg ∧ (toggle s n i e).persisted = s.persisted ∧
    (toggle s n i e).configPath = s.configPath := by
  unfold toggle
  cases alLookup s.hosts n with
  | none => exact ⟨rfl, rfl, rfl⟩
  | some hs =>
    by_cases hi : i < hs.checks.length
    · simp [hi]
    · simp [hi]

/-- C5 (amended): every structural mutating operation (add / update / delete
host, add / update / remove check, update check dependencies) updates both
the runtime map and the config mirror in one step and persists the config
before returning, preserving per-host agreement on check count, order and
fields; `Toggle` and the bulk enable/disable mutate only the runtime enabled
flags, leave the config mirror untouched and do not persist. -/
theorem store_mutations_sync (s : MState) (hsync : inSync s)
    (hpath : s.configPath ≠ "")
    (hext : fileExt s.configPath = ".yaml" ∨ fileExt s.configPath = ".yml" ∨
      fileExt s.configPath = ".toml") :
    (∀ n a u s', addHost s n a u = .ok s' →
      inSync s' ∧ s'.persisted = some s'.cfg) ∧
    (∀ n a u s', addHostWithoutDefaultCheck s n a u = .ok s' →
      inSync s' ∧ s'.persisted = some s'.cfg) ∧
    (∀ o n a u s', updateHost s o n a u = .ok s' →
      inSync s' ∧ s'.persisted = some s'.cfg) ∧
    (∀ n s', deleteHost s n = .ok s' →
      inSync s' ∧ s'.persisted = some s'.cfg) ∧
    (∀ n url e id dep mq s', addHTTPCheck s n url e id dep mq = .ok s' →
      inSync s' ∧ s'.persisted = some s'.cfg) ∧
    (∀ n id dep mq s', addPingCheck s n id dep mq = .ok s' →
      inSync s' ∧ s'.persisted = some s'.cfg) ∧
    (∀ n prt id dep mq s', addTCPCheck s n prt id dep mq = .ok s' →
      inSync s' ∧ s'.persisted = some s'.cfg) ∧
    (∀ n i s', removeCheck s n i = .ok s' →
      inSync s' ∧ s'.persisted = some s'.cfg) ∧
    (∀ n i url e id dep mq s', updateHTTPCheck s n i url e id dep mq = .ok s' →
      inSync s' ∧ s'.persisted = some s'.cfg) ∧
    (∀ n i prt id dep mq s', updateTCPCheck s n i prt id dep mq = .ok s' →
      inSync s' ∧ s'.persisted = some s'.cfg) ∧
    (∀ n i id dep mq s', updateCheckDependencies s n i id dep mq = .ok s' →
      inSync s' ∧ s'.persisted = some s'.cfg) ∧
    (∀ n i e, (toggle s n i e).cfg = s.cfg ∧
      (toggle s n i e).persisted = s.persisted) ∧
    (∀ e, (setAllEnabled s e).cfg = s.cfg ∧
      (setAllEnabled s e).persisted = s.persisted) := by
  refine ⟨?_, ?_, ?_, ?_, ?_, ?_, ?_, ?_, ?_, ?_, ?_, ?_, ?_⟩
  · intro n a u s' h
    unfold addHost at h
    split at h
    · simp at h
    · next hl =>
      simp only [Except.ok.injEq] at h
      subst h
      obtain ⟨c4, c3, c5⟩ := addSave_spec s n
        ⟨n, a, [initCheckStatus .ping true "" "" false "" 0 0], u⟩
        ⟨n, a, u, [⟨.ping, true, "", 0, 0, "", "", false⟩]⟩ hsync
        (Option.not_isSome_iff_eq_none.mp hl) rfl
        ⟨rfl, rfl, rfl, List.Forall₂.cons
          (by simp [checkAgrees, initCheckStatus]) List.Forall₂.nil⟩
      exact ⟨c4, c5 hpath hext⟩
  · intro n a u s' h
    unfold addHostWithoutDefaultCheck at h
    split at h
    · simp at h
    · next hl =>
      simp only [Except.ok.injEq] at h
      subst h
      obtain ⟨c4, c3, c5⟩ := addSave_spec s n ⟨n, a, [], u⟩ ⟨n, a, u, []⟩ hsync
        (Option.not_isSome_iff_eq_none.mp hl) rfl
        ⟨rfl, rfl, rfl, List.Forall₂.nil⟩
      exact ⟨c4, c5 hpath hext⟩
  · intro o n a u s' h
    unfold updateHost at h
    split at h
    · simp at h
    · next hs₀ hlk =>
      split at h
      · simp at h
      · next hg =>
        simp only [Except.ok.injEq] at h
        by_cases hren : n ≠ o
        · rw [if_pos hren] at h
          subst h
          have hnew : alLookup s.hosts n = none :=
            Option.not_isSome_iff_eq_none.mp (fun hs => hg ⟨hren, hs⟩)
          obtain ⟨c4, c3, c5⟩ := renameSave_spec s o n hs₀
            ⟨n, a, hs₀.checks, u⟩
            (fun ch => ⟨n, a, u, ch.checks⟩) hsync hren hlk
            hnew (fun ch => rfl) rfl
            (fun ch hcn hag => ⟨rfl, rfl, rfl, hag.2.2.2⟩)
          exact ⟨c4, c5 hpath hext⟩
        · rw [if_neg hren] at h
          subst h
          have ho : n = o := not_not.mp (fun hx => hren hx)
          subst ho
          obtain ⟨c4, c3, c5⟩ := modifySave_spec s n hs₀
            ⟨n, a, hs₀.checks, u⟩
            (fun ch => ⟨n, a, u, ch.checks⟩) hsync hlk
            (fun ch hcn => by rw [hcn])
            (fun ch hag => ⟨rfl, rfl, rfl, hag.2.2.2⟩)
          exact ⟨c4, c5 hpath hext⟩
  · intro n s' h
    unfold deleteHost at h
    split at h
    · simp at h
    · next hl =>
      simp only [Except.ok.injEq] at h
      subst h
      obtain ⟨c4, c3, c5⟩ := removeSave_spec s n hsync
      exact ⟨c4, c5 hpath hext⟩
  · intro n url e id dep mq s' h
    unfold addHTTPCheck at h
    split at h
    · simp at h
    · next hs₀ hlk =>
      simp only [Except.ok.injEq] at h
      subst h
      obtain ⟨c4, c3, c5⟩ := modifySave_spec s n hs₀
        { hs₀ with checks := hs₀.checks ++
          [initCheckStatus .http true id dep mq url e 0] }
        (fun ch => { ch with checks := ch.checks ++
          [⟨.http, true, url, e, 0, id, dep, mq⟩] }) hsync hlk
        (fun ch hcn => rfl)
        (fun ch hag => ⟨hag.1, hag.2.1, hag.2.2.1,
          forall₂_append_singleton hag.2.2.2
            (by simp [checkAgrees, initCheckStatus])⟩)
      exact ⟨c4, c5 hpath hext⟩
  · intro n id dep mq s' h
    unfold addPingCheck at h
    split at h
    · simp at h
    · next hs₀ hlk =>
      simp only [Except.ok.injEq] at h
      subst h
      obtain ⟨c4, c3, c5⟩ := modifySave_spec s n hs₀
        { hs₀ with checks := hs₀.checks ++
          [initCheckStatus .ping true id dep mq "" 0 0] }
        (fun ch => { ch with checks := ch.checks ++
          [⟨.ping, true, "", 0, 0, id, dep, mq⟩] }) hsync hlk
        (fun ch hcn => rfl)
        (fun ch hag => ⟨hag.1, hag.2.1, hag.2.2.1,
          forall₂_append_singleton hag.2.2.2
            (by simp [checkAgrees, initCheckStatus])⟩)
      exact ⟨c4, c5 hpath hext⟩
  · intro n prt id dep mq s' h
    unfold addTCPCheck at h
    split at h
    · simp at h
    · next hs₀ hlk =>
      simp only [Except.ok.injEq] at h
      subst h
      obtain ⟨c4, c3, c5⟩ := modifySave_spec s n hs₀
        { hs₀ with checks := hs₀.checks ++
          [initCheckStatus .tcp true id dep mq "" 0 prt] }
        (fun ch => { ch with checks := ch.checks ++
          [⟨.tcp, true, "", 0, prt, id, dep, mq⟩] }) hsync hlk
        (fun ch hcn => rfl)
        (fun ch hag => ⟨hag.1, hag.2.1, hag.2.2.1,
          forall₂_append_singleton hag.2.2.2
            (by simp [checkAgrees, initCheckStatus])⟩)
      exact ⟨c4, c5 hpath hext⟩
  · intro n i s' h
    unfold removeCheck at h
    split at h
    · simp at h
    · next hs₀ hlk =>
      split at h
      · simp at h
      · next hidx =>
        simp only [Except.ok.injEq] at h
        subst h
        obtain ⟨c4, c3, c5⟩ := modifySave_spec s n hs₀
          { hs₀ with checks := hs₀.checks.eraseIdx i }
          (fun ch => if i ≥ ch.checks.length then ch
            else { ch with checks := ch.checks.eraseIdx i }) hsync hlk
          (fun ch hcn => by by_cases hc : i ≥ ch.checks.length <;> simp [hc])
          (fun ch hag => by
            have hlen := List.Forall₂.length_eq hag.2.2.2
            have hc : ¬ i ≥ ch.checks.length := by
              simp only [not_le] at hidx ⊢
              omega
            dsimp only
            rw [if_neg hc]
            exact ⟨hag.1, hag.2.1, hag.2.2.1, forall₂_eraseIdx _ _ _ hag.2.2.2⟩)
        exact ⟨c4, c5 hpath hext⟩
  · intro n i url e id dep mq s' h
    unfold updateHTTPCheck at h
    split at h
    · simp at h
    · next hs₀ hlk =>
      split at h
      · simp at h
      · next hidx =>
        split at h
        · simp at h
        · next hty =>
          simp only [Except.ok.injEq] at h
          subst h
          obtain ⟨c4, c3, c5⟩ := modifySave_spec s n hs₀
            { hs₀ with checks := modifyAt hs₀.checks i (fun c =>
              { c with url := url, expect := e, id := id, dependsOn := dep, mqttNotify := mq }) }
            (fun ch => if i ≥ ch.checks.length then ch
              else { ch with checks := modifyAt ch.checks i (fun c =>
                { c with url := url, expect := e, id := id, dependsOn := dep, mqttNotify := mq }) })
            hsync hlk
            (fun ch hcn => by by_cases hc : i ≥ ch.checks.length <;> simp [hc])
            (fun ch hag => by
              have hlen := List.Forall₂.length_eq hag.2.2.2
              have hc : ¬ i ≥ ch.checks.length := by
                simp only [not_le] at hidx ⊢
                omega
              dsimp only
              rw [if_neg hc]
              refine ⟨hag.1, hag.2.1, hag.2.2.1, forall₂_modifyAt _ _ ?_ _ _ _
                hag.2.2.2⟩
              intro x y hxy
              exact ⟨hxy.1, hxy.2.1, rfl, rfl, rfl, fun _ => ⟨rfl, rfl⟩,
                fun hh => hxy.2.2.2.2.2.2 hh⟩)
          exact ⟨c4, c5 hpath hext⟩
  · intro n i prt id dep mq s' h
    unfold updateTCPCheck at h
    split at h
    · simp at h
    · next hs₀ hlk =>
      split at h
      · simp at h
      · next hidx =>
        split at h
        · simp at h
        · next hty =>
          simp only [Except.ok.injEq] at h
          subst h
          obtain ⟨c4, c3, c5⟩ := modifySave_spec s n hs₀
            { hs₀ with checks := modifyAt hs₀.checks i (fun c =>
              { c with port := prt, id := id, dependsOn := dep, mqttNotify := mq }) }
            (fun ch => if i ≥ ch.checks.length then ch
              else { ch with checks := modifyAt ch.checks i (fun c =>
                { c with port := prt, id := id, dependsOn := dep, mqttNotify := mq }) })
            hsync hlk
            (fun ch hcn => by by_cases hc : i ≥ ch.checks.length <;> simp [hc])
            (fun ch hag => by
              have hlen := List.Forall₂.length_eq hag.2.2.2
              have hc : ¬ i ≥ ch.checks.length := by
                simp only [not_le] at hidx ⊢
                omega
              dsimp only
              rw [if_neg hc]
              refine ⟨hag.1, hag.2.1, hag.2.2.1, forall₂_modifyAt _ _ ?_ _ _ _
                hag.2.2.2⟩
              intro x y hxy
              exact ⟨hxy.1, hxy.2.1, rfl, rfl, rfl,
                fun hh => hxy.2.2.2.2.2.1 hh, fun _ => rfl⟩)
          exact ⟨c4, c5 hpath hext⟩
  · intro n i id dep mq s' h
    unfold updateCheckDependencies at h
    split at h
    · simp at h
    · next hs₀ hlk =>
      split at h
      · simp at h
      · next hidx =>
        simp only [Except.ok.injEq] at h
        subst h
        obtain ⟨c4, c3, c5⟩ := modifySave_spec s n hs₀
          { hs₀ with checks := modifyAt hs₀.checks i (fun c =>
            { c with id := id, dependsOn := dep, mqttNotify := mq }) }
          (fun ch => if i ≥ ch.checks.length then ch
            else { ch with checks := modifyAt ch.checks i (fun c =>
              { c with id := id, dependsOn := dep, mqttNotify := mq }) })
          hsync hlk
          (fun ch hcn => by by_cases hc : i ≥ ch.checks.length <;> simp [hc])
          (fun ch hag => by
            have hlen := List.Forall₂.length_eq hag.2.2.2
            have hc : ¬ i ≥ ch.checks.length := by
              simp only [not_le] at hidx ⊢
              omega
            dsimp only
            rw [if_neg hc]
            refine ⟨hag.1, hag.2.1, hag.2.2.1, forall₂_modifyAt _ _ ?_ _ _ _
              hag.2.2.2⟩
            intro x y hxy
            exact ⟨hxy.1, hxy.2.1, rfl, rfl, rfl,
              fun hh => hxy.2.2.2.2.2.1 hh, fun hh => hxy.2.2.2.2.2.2 hh⟩)
        exact ⟨c4, c5 hpath hext⟩
  · intro n i e
    exact ⟨(toggle_frame s n i e).1, (toggle_frame s n i e).2.1⟩
  · intro e
    exact ⟨rfl, rfl⟩

/-- A small concrete store: one host `h` with one enabled ping check, a
bound YAML config path, and a persisted image matching the config. -/
def S0 : MState :=
  ⟨[("h", ⟨"h", "a", [initCheckStatus .ping true "" "" false "" 0 0], ""⟩)],
   ⟨[⟨"h", "a", "", [⟨.ping, true, "", 0, 0, "", "", false⟩]⟩]⟩,
   "config.yaml",
   some ⟨[⟨"h", "a", "", [⟨.ping, true, "", 0, 0, "", "", false⟩]⟩]⟩⟩

lemma S0_inSync : inSync S0 := by
  refine ⟨by simp [S0], by simp [S0], ?_, ?_⟩
  · intro ch hm
    simp only [S0, List.mem_singleton] at hm
    subst hm
    exact ⟨⟨"h", "a", [initCheckStatus .ping true "" "" false "" 0 0], ""⟩, rfl,
      rfl, rfl, rfl, List.Forall₂.cons
        (by simp [checkAgrees, initCheckStatus]) List.Forall₂.nil⟩
  · intro p hm
    simp only [S0, List.mem_singleton] at hm
    subst hm
    exact ⟨⟨"h", "a", "", [⟨.ping, true, "", 0, 0, "", "", false⟩]⟩, by simp [S0],
      rfl⟩

/-- Counterexample to C5 as stated: `Toggle` flips the runtime enabled flag
but leaves the config mirror reading `enabled = true` and does not persist,
so after this mutating operation the two representations disagree on a check
field. -/
theorem store_sync_toggle_counterexample :
    ((toggle S0 "h" 0 false).hosts.map (fun p => p.2.checks.map (·.enabled)))
      = [[false]] ∧
    ((toggle S0 "h" 0 false).cfg.hosts.map (fun ch => ch.checks.map (·.enabled)))
      = [[true]] ∧
    (toggle S0 "h" 0 false).persisted = S0.persisted ∧
    [[false]] ≠ [[true]] := by
  exact ⟨by decide, by decide, rfl, by decide⟩

/-- Witness for `store_mutations_sync`: deleting the only host of the
concrete store keeps the representations agreeing and persists. -/
theorem store_mutations_sync_witness :
    deleteHost S0 "h" = .ok ⟨[], ⟨[]⟩, "config.yaml", some ⟨[]⟩⟩ ∧
    inSync ⟨[], ⟨[]⟩, "config.yaml", some ⟨[]⟩⟩ ∧
    (⟨[], ⟨[]⟩, "config.yaml", some ⟨[]⟩⟩ : MState).persisted =
      some (⟨[], ⟨[]⟩, "config.yaml", some ⟨[]⟩⟩ : MState).cfg := by
  have h : deleteHost S0 "h" = .ok ⟨[], ⟨[]⟩, "config.yaml", some ⟨[]⟩⟩ := rfl
  obtain ⟨hi, hp⟩ := (store_mutations_sync S0 S0_inSync (by decide)
    (Or.inl (by decide))).2.2.2.1 "h" _ h
  exact ⟨h, hi, hp⟩

/-- C8 (amended): an HTTP check with `expect = 0` is evaluated against the
default status 200, but `AddHTTPCheck` stores it — in the runtime state, the
config mirror and the persisted file — with `expect = 0`; the default is
applied at evaluation time only. -/
theorem http_expect_zero_behavior :
    (∀ (c : CheckStatus) (pr : ProbeInputs) (p : Bool) (now : Nat),
      c.type = .http → c.expect = 0 →
      (applyProbe p now c pr).2 =
        (match pr.http.err with
         | none => pr.http.code == 200
         | some _ => false)) ∧
    (∀ (s : MState) (n url id dep : String) (mq : Bool) (s' : MState),
      inSync s →
      addHTTPCheck s n url 0 id dep mq = .ok s' →
      ∃ ch, ch ∈ s'.cfg.hosts ∧ ch.name = n ∧
        (ch.checks.getLast?).map (·.expect) = some 0) := by
  constructor
  · intro c pr p now hty hexp
    obtain ⟨ty, en, ok, pf, pid, msg, lat, lh, fh, ca, url, exp, prt, id, dep,
      mq, tc, sc, lda, lua⟩ := c
    simp only at hty hexp
    subst hty
    subst hexp
    rcases herr : pr.http.err with - | e
    · simp [applyProbe, herr]
    · simp [applyProbe, herr]
  · intro s n url id dep mq s' hsync h
    unfold addHTTPCheck at h
    split at h
    · simp at h
    · next hs₀ hlk =>
      simp only [Except.ok.injEq] at h
      subst h
      have hsync₁ := inSync_modifyNamedHost s n hs₀
        { hs₀ with checks := hs₀.checks ++
          [initCheckStatus .http true id dep mq url 0 0] }
        (fun ch => { ch with checks := ch.checks ++
          [⟨.http, true, url, 0, 0, id, dep, mq⟩] })
        s.configPath s.persisted hsync hlk (fun ch hcn => rfl)
        (fun ch hag => ⟨hag.1, hag.2.1, hag.2.2.1,
          forall₂_append_singleton hag.2.2.2
            (by simp [checkAgrees, initCheckStatus])⟩)
      obtain ⟨c1, -, -, -, -⟩ := saveConfigLocked_spec _ hsync₁
      obtain ⟨ch0, m1, m2⟩ := ((hsync.2.2.2) (n, hs₀) (alLookup_mem _ _ _ hlk))
      obtain ⟨ch1, k1, k2, k3⟩ := exists_updateFirstHost s.cfg.hosts n
        (fun ch => { ch with checks := ch.checks ++
          [⟨.http, true, url, 0, 0, id, dep, mq⟩] }) ch0 m1 m2
      refine ⟨{ ch1 with checks := ch1.checks ++
        [⟨.http, true, url, 0, 0, id, dep, mq⟩] }, ?_, k2, ?_⟩
      · rw [c1]
        exact k3
      · show ((ch1.checks ++
          [(⟨.http, true, url, 0, 0, id, dep, mq⟩ : ConfigCheck)]).getLast?).map
          (·.expect) = some 0
        rw [getLast_append_singleton]
        rfl

/-- Witness for `http_expect_zero_behavior`: a freshly added `expect = 0`
HTTP check probed with status code 200 evaluates as up, and adding it to the
concrete store persists `expect = 0`. -/
theorem http_expect_zero_behavior_witness :
    (applyProbe true 5 (initCheckStatus .http true "" "" false "u" 0 0)
      ⟨⟨true, 0, none⟩, ⟨200, 3, none⟩, ⟨true, 0, none⟩⟩).2 = true := by
  have h := http_expect_zero_behavior.1
    (initCheckStatus .http true "" "" false "u" 0 0)
    ⟨⟨true, 0, none⟩, ⟨200, 3, none⟩, ⟨true, 0, none⟩⟩ true 5 rfl rfl
  rw [h]
  decide

/-- Counterexample to C8 as stated: adding an `expect = 0` HTTP check to the
concrete store records `expect = 0` (not 200) in both the config mirror and
the persisted image. -/
theorem http_expect_zero_counterexample :
    ((addHTTPCheck S0 "h" "u" 0 "" "" false).map
      (fun s => s.cfg.hosts.map (fun ch => ch.checks.map (·.expect)))) =
      .ok [[0, 0]] ∧
    ((addHTTPCheck S0 "h" "u" 0 "" "" false).map
      (fun s => s.persisted.map
        (fun c => c.hosts.map (fun ch => ch.checks.map (·.expect))))) =
      .ok (some [[0, 0]]) ∧
    (0 : Int) ≠ 200 := by
  exact ⟨rfl, rfl, by decide⟩

/-! ## The ID index under removals (pointer-level model)

`checksByID` stores Go pointers `&hs.Checks[i]` into the backing arrays of
the per-host check slices. `RemoveCheck` shrinks a slice in place via
`append(hs.Checks[:idx], hs.Checks[idx+1:]...)` — later elements shift down
one slot inside the same backing array and the final slot keeps its old,
now out-of-slice value — and `DeleteHost` merely unlinks the host from the
map. Neither calls `rebuildCheckIndex`, so the index keeps its old pointers.
This model makes the backing arrays and pointers explicit in order to settle
what those stale pointers observe. -/

/-- A `*CheckStatus`: a backing-array identifier and a slot. -/
structure Ptr where
  arr : Nat
  slot : Nat
deriving DecidableEq, Repr

/-- The store at pointer level: backing arrays, the host map (each host's
array and live slice length), and the `checksByID` index. -/
structure PtrState where
  heap : List (Nat × List CheckStatus)
  hostsP : List (String × (Nat × Nat))
  indexP : List (String × Ptr)
deriving Repr

/-- Dereference a check pointer. -/
def readPtr (st : PtrState) (p : Ptr) : Option CheckStatus :=
  (alLookup st.heap p.arr).bind (fun a => a.get? p.slot)

/-- `State.GetCheckByID`. -/
def getCheckByIDP (st : PtrState) (id : String) : Option CheckStatus :=
  (alLookup st.indexP id).bind (readPtr st)

/-- The in-place shift performed by `append(a[:idx], a[idx+1:len]...)` on a
backing array holding a slice of length `len`: elements after `idx` move
down one slot and slot `len-1` keeps its old value. -/
def shiftDown (a : List CheckStatus) (idx len : Nat) : List CheckStatus :=
  a.take idx ++ ((a.drop (idx + 1)).take (len - idx - 1)) ++ a.drop (len - 1)

/-- `State.RemoveCheck` at pointer level (the index is not rebuilt). -/
def removeCheckP (st : PtrState) (hostName : String) (idx : Nat) : PtrState :=
  match alLookup st.hostsP hostName with
  | none => st
  | some (arr, len) =>
    if idx ≥ len then st
    else
      { st with
        heap := (match alLookup st.heap arr with
          | none => st.heap
          | some a => alSet st.heap arr (shiftDown a idx len))
        hostsP := alSet st.hostsP hostName (arr, len - 1) }

/-- `State.DeleteHost` at pointer level: the host leaves the map; its backing
array and the index survive (the index is not rebuilt). -/
def deleteHostP (st : PtrState) (name : String) : PtrState :=
  if (alLookup st.hostsP name).isNone then st
  else { st with hostsP := alRemove st.hostsP name }

/-- `State.rebuildCheckIndex`: scan the live slices and re-point every
nonempty check ID. -/
def rebuildIndexP (st : PtrState) : PtrState :=
  { st with indexP := st.hostsP.foldl (fun acc p =>
      (List.range p.2.2).foldl (fun acc i =>
        match (alLookup st.heap p.2.1).bind (fun a => a.get? i) with
        | some cs => if cs.id = "" then acc else alSet acc cs.id ⟨p.2.1, i⟩
        | none => acc) acc) [] }

lemma alSet_self [DecidableEq κ] (l : List (κ × α)) (k : κ) (v : α)
    (h : alLookup l k = some v) : alSet l k v = l := by
  induction l with
  | nil => simp [alLookup] at h
  | cons p rest ih =>
    obtain ⟨k0, v0⟩ := p
    by_cases h0 : k0 = k
    · rw [alLookup, if_pos h0] at h
      simp only [Option.some.injEq] at h
      simp [alSet, h0, h]
    · rw [alLookup, if_neg h0] at h
      simp [alSet, h0, ih h]

lemma shiftDown_last (a : List CheckStatus) (len : Nat) (h : 0 < len) :
    shiftDown a (len - 1) len = a := by
  unfold shiftDown
  have h1 : len - (len - 1) - 1 = 0 := by omega
  have h2 : len - 1 + 1 = len := by omega
  rw [h1, h2]
  simp

lemma shiftDown_get (a : List CheckStatus) (idx len : Nat)
    (h1 : idx + 1 < len) (h2 : len ≤ a.length) :
    (shiftDown a idx len).get? idx = a.get? (idx + 1) := by
  unfold shiftDown
  have hl1 : (a.take idx).length = idx := by
    rw [List.length_take]
    omega
  rw [List.append_assoc]
  rw [List.get?_append_right (le_of_eq hl1)]
  rw [hl1, Nat.sub_self]
  have hl2 : 0 < ((a.drop (idx + 1)).take (len - idx - 1)).length := by
    rw [List.length_take, List.length_drop]
    omega
  rw [List.get?_append hl2]
  rw [List.get?_take (by omega)]
  rw [List.get?_drop]

/-- C10 (amended): `RemoveCheck` and `DeleteHost` do not rebuild the ID
index. A stale ID still resolves: after `DeleteHost` every lookup is
unchanged (the removed host's checks remain readable); after removing the
LAST check of a host the lookup still returns the removed check's status;
after removing a non-last check, the pointer for the removed slot now reads
the check that shifted into that slot. A later index rebuild clears the
stale entry. -/
theorem stale_index_after_removal :
    (∀ (st : PtrState) (host : String) (idx : Nat),
      (removeCheckP st host idx).indexP = st.indexP) ∧
    (∀ (st : PtrState) (name : String),
      (deleteHostP st name).indexP = st.indexP ∧
      (deleteHostP st name).heap = st.heap) ∧
    (∀ (st : PtrState) (name id : String),
      getCheckByIDP (deleteHostP st name) id = getCheckByIDP st id) ∧
    (∀ (st : PtrState) (host : String) (arr len : Nat),
      alLookup st.hostsP host = some (arr, len) → 0 < len →
      ∀ (a : List CheckStatus), alLookup st.heap arr = some a →
      ∀ id, getCheckByIDP (removeCheckP st host (len - 1)) id =
        getCheckByIDP st id) ∧
    (∀ (st : PtrState) (host : String) (arr len idx : Nat)
      (a : List CheckStatus) (id : String),
      alLookup st.hostsP host = some (arr, len) →
      alLookup st.heap arr = some a →
      idx + 1 < len → len ≤ a.length →
      alLookup st.indexP id = some ⟨arr, idx⟩ →
      getCheckByIDP (removeCheckP st host idx) id = a.get? (idx + 1)) := by
  refine ⟨?_, ?_, ?_, ?_, ?_⟩
  · intro st host idx
    unfold removeCheckP
    split
    · rfl
    · split
      · rfl
      · rfl
  · intro st name
    unfold deleteHostP
    split
    · exact ⟨rfl, rfl⟩
    · exact ⟨rfl, rfl⟩
  · intro st name id
    unfold deleteHostP
    split
    · rfl
    · rfl
  · intro st host arr len hlk hlen a ha id
    unfold removeCheckP
    rw [hlk]
    simp only
    rw [if_neg (by omega)]
    rw [ha]
    simp only
    rw [shiftDown_last a len hlen, alSet_self st.heap arr a ha]
    rfl
  · intro st host arr len idx a id hlk ha hi hle hidx
    unfold removeCheckP
    rw [hlk]
    simp only
    rw [if_neg (by omega)]
    rw [ha]
    simp only
    unfold getCheckByIDP
    show (alLookup st.indexP id).bind _ = _
    rw [hidx]
    show readPtr _ ⟨arr, idx⟩ = _
    unfold readPtr
    show (alLookup (alSet st.heap arr (shiftDown a idx len)) arr).bind _ = _
    rw [alLookup_alSet, if_pos rfl]
    show (shiftDown a idx len).get? idx = _
    exact shiftDown_get a idx len hi hle

/-- Witness for `stale_index_after_removal` at a concrete two-check store. -/
theorem stale_index_after_removal_witness :
    getCheckByIDP (deleteHostP
      ⟨[(0, [initCheckStatus .ping true "a" "" false "" 0 0,
             initCheckStatus .ping true "b" "" false "" 0 0])],
       [("h", (0, 2))],
       [("a", ⟨0, 0⟩), ("b", ⟨0, 1⟩)]⟩ "h") "a" =
    getCheckByIDP
      ⟨[(0, [initCheckStatus .ping true "a" "" false "" 0 0,
             initCheckStatus .ping true "b" "" false "" 0 0])],
       [("h", (0, 2))],
       [("a", ⟨0, 0⟩), ("b", ⟨0, 1⟩)]⟩ "a" :=
  stale_index_after_removal.2.2.1 _ "h" "a"

/-- Counterexample to C10 as stated: removing the FIRST of two checks leaves
the index pointing at slot 0, which now holds the second check — the lookup
returns the surviving neighbour's status, not the removed check's. A
subsequent index rebuild drops the stale ID entirely. -/
theorem stale_index_counterexample :
    getCheckByIDP (removeCheckP
      ⟨[(0, [initCheckStatus .ping true "a" "" false "" 0 0,
             initCheckStatus .ping true "b" "" false "" 0 0])],
       [("h", (0, 2))],
       [("a", ⟨0, 0⟩), ("b", ⟨0, 1⟩)]⟩ "h" 0) "a" =
      some (initCheckStatus .ping true "b" "" false "" 0 0) ∧
    initCheckStatus .ping true "b" "" false "" 0 0 ≠
      initCheckStatus .ping true "a" "" false "" 0 0 ∧
    getCheckByIDP (rebuildIndexP (removeCheckP
      ⟨[(0, [initCheckStatus .ping true "a" "" false "" 0 0,
             initCheckStatus .ping true "b" "" false "" 0 0])],
       [("h", (0, 2))],
       [("a", ⟨0, 0⟩), ("b", ⟨0, 1⟩)]⟩ "h" 0)) "a" = none := by
  exact ⟨by decide, by decide, by decide⟩

/-- Witness for `counters_invariant` at a concrete check status. -/
theorem counters_invariant_witness :
    (0 : Int) ≤ (initCheckStatus .ping true "" "" false "" 0 0).successChecks ∧
    ((initCheckStatus .ping true "" "" false "" 0 0).recordDataPoint 5 true 7).totalChecks
      = (initCheckStatus .ping true "" "" false "" 0 0).totalChecks + 1 := by
  refine ⟨by simp [initCheckStatus], ?_⟩
  exact (counters_invariant (initCheckStatus .ping true "" "" false "" 0 0) 5 true 7
    (by simp [initCheckStatus]) (by simp [initCheckStatus])).1

end HealthChecker
